import Mathlib

/-!
Verification development for the fam_scape_bot scraping core.

Shallow embedding of:
- src/scraper/models.py      (Event, Sex, EventType, normalize_discipline, detect_event_type)
- src/scraper/pdf_parser.py  (table/event extraction, date/location/name extraction, parse)
- src/scraper/web_scraper.py (additional-dates extraction, date normalization, highlight test)
- src/database/repositories/competition.py (upsert_with_hash over an explicit store)
- src/scheduler/jobs.py      (per-entry processing of the scraping job)

Python strings are Lean Strings; regular expressions from the source are
transcribed as explicit scanners over List Char, with Python's leftmost-match
search semantics.  Machine-level behaviour (pdfplumber, HTTP) is abstracted as
oracle inputs: a PDF document is the outcome tree pdfplumber would produce.
-/

namespace FamScape

/-! ### Python-style string primitives -/

/-- Characters treated as whitespace by Python's `str.strip` / `\s`. -/
def isWs (c : Char) : Bool :=
  c = ' ' || c = '\t' || c = '\n' || c = '\r' || c = '\x0b' || c = '\x0c'

def isDigitCh (c : Char) : Bool := '0' ≤ c && c ≤ '9'

def digitVal (c : Char) : Nat := c.toNat - '0'.toNat

/-- Python `str.lower` (ASCII range; the inputs exercised contain no
upper-case accented letters). -/
def pyLower (s : String) : String := String.mk (s.data.map Char.toLower)

/-- Python `str.upper` (ASCII range). -/
def pyUpper (s : String) : String := String.mk (s.data.map Char.toUpper)

def stripList (l : List Char) : List Char :=
  ((l.dropWhile isWs).reverse.dropWhile isWs).reverse

/-- Python `str.strip()`. -/
def pyStrip (s : String) : String := String.mk (stripList s.data)

/-- `pat` occurs as a contiguous substring of `hay` (Python `pat in hay`). -/
def subList : List Char → List Char → Bool
  | _, [] => true
  | [], _ :: _ => false
  | c :: rest, pat => pat.isPrefixOf (c :: rest) || subList rest pat

def strContains (hay pat : String) : Bool := subList hay.data pat.data

/-- First element of the list on which `f` yields `some`. -/
def firstSome {α β : Type} (f : α → Option β) : List α → Option β
  | [] => none
  | a :: rest => match f a with
    | some b => some b
    | none => firstSome f rest

/-- Python `str.split(sep)` for a one-character separator (kernel-reducible
replacement for `String.splitOn`). -/
def splitOnChar (sep : Char) : List Char → List (List Char)
  | [] => [[]]
  | c :: rest =>
    let r := splitOnChar sep rest
    if c = sep then [] :: r
    else match r with
      | h :: t => (c :: h) :: t
      | [] => [[c]]

def pySplit (sep : Char) (s : String) : List String :=
  (splitOnChar sep s.data).map String.mk

/-- Python `int(s)` restricted to the unsigned decimal strings the scraper
feeds it (optional surrounding whitespace, at least one digit). -/
def pyInt? (s : String) : Option Nat :=
  let l := stripList s.data
  if l ≠ [] && l.all isDigitCh then
    some (l.foldl (fun acc c => acc * 10 + digitVal c) 0)
  else none

/-! ### Dates and times (datetime.date / datetime.time) -/

structure PyDate where
  year : Nat
  month : Nat
  day : Nat
  deriving DecidableEq, Repr

structure PyTime where
  hour : Nat
  minute : Nat
  deriving DecidableEq, Repr

def isLeapYear (y : Nat) : Bool := (y % 4 = 0 && y % 100 ≠ 0) || y % 400 = 0

def daysInMonth (y m : Nat) : Nat :=
  if m = 2 then (if isLeapYear y then 29 else 28)
  else if m = 4 || m = 6 || m = 9 || m = 11 then 30
  else 31

/-- `datetime.date(y, m, d)`: `some` on valid arguments, `none` where Python
raises `ValueError` (or `TypeError` for non-int input, handled at call sites). -/
def mkDate? (y m d : Nat) : Option PyDate :=
  if 1 ≤ y && y ≤ 9999 && 1 ≤ m && m ≤ 12 && 1 ≤ d && d ≤ daysInMonth y m then
    some ⟨y, m, d⟩
  else none

/-! ### src/scraper/models.py -/

inductive EventType where
  | carrera
  | concurso
  deriving DecidableEq, Repr

inductive Sex where
  | masculino
  | femenino
  deriving DecidableEq, Repr

structure Event where
  discipline : String
  event_type : EventType
  sex : Sex
  category : String := ""
  scheduled_time : Option PyTime := none
  deriving DecidableEq, Repr

/-- DISCIPLINE_ALIASES from src/scraper/models.py, in source order. -/
def DISCIPLINE_ALIASES : List (String × String) := [
  ("60 m", "60"), ("60m", "60"),
  ("100 m", "100"), ("100m", "100"),
  ("200 m", "200"), ("200m", "200"),
  ("400 m", "400"), ("400m", "400"),
  ("800 m", "800"), ("800m", "800"),
  ("1500 m", "1500"), ("1500m", "1500"),
  ("3000 m", "3000"), ("3000m", "3000"),
  ("5000 m", "5000"), ("5000m", "5000"),
  ("10000 m", "10000"), ("10000m", "10000"),
  ("60 m vallas", "60 Vallas"), ("60m vallas", "60 Vallas"),
  ("100 m vallas", "100 Vallas"), ("100m vallas", "100 Vallas"),
  ("110 m vallas", "110 Vallas"), ("110m vallas", "110 Vallas"),
  ("400 m vallas", "400 Vallas"), ("400m vallas", "400 Vallas"),
  ("3000 m obstáculos", "3000 Obstáculos"),
  ("4x100 m", "4x100"), ("4x100m", "4x100"),
  ("4x400 m", "4x400"), ("4x400m", "4x400"),
  ("salto de altura", "Altura"), ("altura", "Altura"),
  ("salto de longitud", "Longitud"), ("longitud", "Longitud"),
  ("triple salto", "Triple Salto"),
  ("salto con pértiga", "Pértiga"), ("pértiga", "Pértiga"), ("pertiga", "Pértiga"),
  ("lanzamiento de peso", "Peso"), ("peso", "Peso"),
  ("lanzamiento de disco", "Disco"), ("disco", "Disco"),
  ("lanzamiento de martillo", "Martillo"), ("martillo", "Martillo"),
  ("lanzamiento de jabalina", "Jabalina"), ("jabalina", "Jabalina")]

/-- `normalize_discipline` from src/scraper/models.py. -/
def normalize_discipline (discipline : String) : String :=
  let key := pyLower (pyStrip discipline)
  match DISCIPLINE_ALIASES.find? (fun p => p.1 = key) with
  | some p => p.2
  | none => pyStrip discipline

/-- `detect_event_type` from src/scraper/models.py. -/
def detect_event_type (discipline : String) : EventType :=
  let kws := ["altura", "longitud", "triple", "pértiga", "pertiga", "peso",
              "disco", "martillo", "jabalina", "salto"]
  if kws.any (fun kw => strContains (pyLower discipline) kw) then
    EventType.concurso
  else EventType.carrera

/-! ### src/scraper/pdf_parser.py — time pattern `\d{1,2}[:\.]\d{2}` -/

def isTimeSep (c : Char) : Bool := c = ':' || c = '.'

/-- Attempt of the regex `\d{1,2}[:\.]\d{2}` anchored at the head of the list:
returns (hour, minute, length of the match).  Two-digit hour is preferred,
matching the greedy `\d{1,2}` with backtracking. -/
def timeTokenAt (l : List Char) : Option (Nat × Nat × Nat) :=
  match l with
  | c0 :: c1 :: c2 :: c3 :: c4 :: _ =>
    if isDigitCh c0 && isDigitCh c1 && isTimeSep c2 && isDigitCh c3 && isDigitCh c4 then
      some (digitVal c0 * 10 + digitVal c1, digitVal c3 * 10 + digitVal c4, 5)
    else if isDigitCh c0 && isTimeSep c1 && isDigitCh c2 && isDigitCh c3 then
      some (digitVal c0, digitVal c2 * 10 + digitVal c3, 4)
    else none
  | [c0, c1, c2, c3] =>
    if isDigitCh c0 && isTimeSep c1 && isDigitCh c2 && isDigitCh c3 then
      some (digitVal c0, digitVal c2 * 10 + digitVal c3, 4)
    else none
  | _ => none

/-- `re.search(r"(\d{1,2})[:\.](\d{2})", s)`: first (leftmost) match. -/
def findTimeToken : List Char → Option (Nat × Nat)
  | [] => none
  | c :: rest =>
    match timeTokenAt (c :: rest) with
    | some (h, m, _) => some (h, m)
    | none => findTimeToken rest

/-- `PDFParser._parse_time`. -/
def parse_time (time_str : String) : Option PyTime :=
  if time_str = "" then none
  else match findTimeToken time_str.data with
    | some (h, m) => if h ≤ 23 && m ≤ 59 then some ⟨h, m⟩ else none
    | none => none

/-- `re.sub(r"\d{1,2}[:\.]\d{2}", "", s)`: delete every (leftmost,
non-overlapping) match of the time pattern. -/
def stripTimesAux : Nat → List Char → List Char
  | 0, l => l
  | _ + 1, [] => []
  | fuel + 1, c0 :: rest =>
    match timeTokenAt (c0 :: rest) with
    | some (_, _, len) => stripTimesAux fuel ((c0 :: rest).drop len)
    | none => c0 :: stripTimesAux fuel rest

def stripTimes (l : List Char) : List Char := stripTimesAux l.length l

/-- `re.sub(r"\s+", " ", s)`: collapse every whitespace run to one space. -/
def collapseWsAux : Nat → List Char → List Char
  | 0, l => l
  | _ + 1, [] => []
  | _ + 1, [c] => if isWs c then [' '] else [c]
  | fuel + 1, a :: b :: rest =>
    if isWs a && isWs b then collapseWsAux fuel (b :: rest)
    else (if isWs a then ' ' else a) :: collapseWsAux fuel (b :: rest)

def collapseWs (l : List Char) : List Char := collapseWsAux l.length l

/-- Length of the match of `[Ss]erie\s*\d+` anchored at the head, if any. -/
def serieTokenLen (l : List Char) : Option Nat :=
  match l with
  | s :: e :: r :: i :: e2 :: rest =>
    if (s = 'S' || s = 's') && e = 'e' && r = 'r' && i = 'i' && e2 = 'e' then
      let wsn := (rest.takeWhile isWs).length
      let dn := ((rest.drop wsn).takeWhile isDigitCh).length
      if dn ≥ 1 then some (5 + wsn + dn) else none
    else none
  | _ => none

def stripSerieAux : Nat → List Char → List Char
  | 0, l => l
  | _ + 1, [] => []
  | fuel + 1, c :: rest =>
    match serieTokenLen (c :: rest) with
    | some n => stripSerieAux fuel ((c :: rest).drop n)
    | none => c :: stripSerieAux fuel rest

/-- `re.sub(r"[Ss]erie\s*\d+", "", s)`. -/
def stripSerie (l : List Char) : List Char := stripSerieAux l.length l

/-! ### pdf_parser: discipline search in a row -/

/-- `re.search(r"\d{2,5}\s*m", s)` as a Boolean (and, with `minRun := 1`,
`re.search(r"\d+\s*(?:metros?|m\.?)", s)`: every alternative begins with `m`,
so the Boolean reduces to a digit run followed by optional whitespace and
an `m`).  `runOk` checks the condition anchored at the head. -/
def digitsWsMAt (minRun : Nat) (l : List Char) : Bool :=
  let r := (l.takeWhile isDigitCh).length
  r ≥ minRun && r ≥ 1 &&
    (match (l.drop r).dropWhile isWs with
     | 'm' :: _ => true
     | _ => false)

def digitsWsM (minRun : Nat) : List Char → Bool
  | [] => false
  | c :: rest => digitsWsMAt minRun (c :: rest) || digitsWsM minRun rest

/-- The discipline regex list of `PDFParser._find_discipline_in_row`, as a
Boolean over the (lower-cased) cell text. -/
def cellHasDisciplineToken (cellLower : String) : Bool :=
  let l := cellLower.data
  digitsWsM 2 l || digitsWsM 1 l ||
    ["valla", "obstáculos", "relevo", "altura", "longitud", "triple",
     "pértiga", "pertiga", "peso", "disco", "martillo", "jabalina",
     "marcha"].any (fun kw => strContains cellLower kw)

/-- `PDFParser._find_discipline_in_row` (rows reach it already stripped). -/
def find_discipline_in_row (row : List String) : String :=
  match row.find? (fun cell => cell ≠ "" && cellHasDisciplineToken (pyLower cell)) with
  | some cell => cell
  | none => ""

/-! ### pdf_parser: sex extraction -/

/-- `PDFParser._extract_sex_from_row`. -/
def extract_sex_from_row (row : List String) (sex_col : Option Nat) : Sex :=
  let fromCol : Option Sex :=
    match sex_col with
    | some i =>
      if h : i < row.length then
        let cell := pyLower (row.get ⟨i, h⟩)
        if strContains cell "f" || strContains cell "fem" || strContains cell "muj" then
          some Sex.femenino
        else if strContains cell "m" || strContains cell "mas" || strContains cell "hom" then
          some Sex.masculino
        else none
      else none
    | none => none
  match fromCol with
  | some s => s
  | none =>
    let row_text := pyLower (String.intercalate " " row)
    if ["femenino", "fem.", "mujeres", " f "].any (fun kw => strContains row_text kw) then
      Sex.femenino
    else if ["masculino", "mas.", "hombres", " m "].any (fun kw => strContains row_text kw) then
      Sex.masculino
    else Sex.masculino

/-! ### pdf_parser: row parsing -/

structure ColMap where
  discipline_col : Option Nat := none
  sex_col : Option Nat := none
  time_col : Option Nat := none
  category_col : Option Nat := none
  deriving DecidableEq, Repr

/-- The discipline text selected from a (stripped) row: the discipline
column when detected and in range, the whole-row discipline search
otherwise (step 2 of `_parse_event_row`). -/
def rowDiscipline (row : List String) (cols : ColMap) : String :=
  match cols.discipline_col with
  | some i => if h : i < row.length then row.get ⟨i, h⟩ else find_discipline_in_row row
  | none => find_discipline_in_row row

/-- The discipline clean-up chain of `_parse_event_row`: newlines to
spaces, delete time tokens, collapse whitespace, delete `serie N` tokens,
stripping after each substitution. -/
def cleanDiscipline (discipline0 : String) : String :=
  let d1 := discipline0.data.map (fun c => if c = '\n' then ' ' else c)
  let d2 := stripList (stripTimes d1)
  let d3 := stripList (collapseWs d2)
  let d4 := stripList (stripSerie d3)
  String.mk d4

/-- Step 1 of `_parse_event_row`: the scheduled time — the time column when
detected and in range, falling back to the first cell of the row whose text
parses as a time. -/
def rowTime (row : List String) (cols : ColMap) : Option PyTime :=
  let timeFromCol : Option PyTime :=
    match cols.time_col with
    | some i => if h : i < row.length then parse_time (row.get ⟨i, h⟩) else none
    | none => none
  match timeFromCol with
  | some t => some t
  | none => firstSome parse_time row

/-- Step 4 of `_parse_event_row`: the category cell, when mapped and in
range. -/
def rowCategory (row : List String) (cols : ColMap) : String :=
  match cols.category_col with
  | some i => if h : i < row.length then row.get ⟨i, h⟩ else ""
  | none => ""

/-- `PDFParser._parse_event_row`: cells stripped, blank rows and rows with
no discipline text discarded, fields assembled from the numbered steps of
the source (time, discipline+cleaning+normalization, sex, category). -/
def parse_event_row (row0 : List String) (cols : ColMap) : Option Event :=
  let row := row0.map pyStrip
  if row.all (fun c => c = "") then none
  else
    let discipline0 := rowDiscipline row cols
    if discipline0 = "" then none
    else
      let discipline := normalize_discipline (cleanDiscipline discipline0)
      some { discipline := discipline,
             event_type := detect_event_type discipline,
             sex := extract_sex_from_row row cols.sex_col,
             category := rowCategory row cols,
             scheduled_time := rowTime row cols }

/-! ### pdf_parser: table parsing -/

/-- `COMMON_DISCIPLINES` from `PDFParser`. -/
def COMMON_DISCIPLINES : List String := [
  "60", "100", "200", "300", "400", "500", "600", "800", "1.000", "1500",
  "3000", "60m", "100m", "200m", "300m", "400m", "500m", "600m", "800m",
  "1000m", "1500m", "vallas", "mv", "Altura", "Longitud", "Pértiga",
  "Triple", "Peso", "Disco", "Jabalina", "Martillo", "Marcha", "Cross",
  "Relevo", "Combinada"]

/-- Step 1 of `PDFParser._parse_events_table`: header-keyword column
detection.  Later cells overwrite earlier assignments of the same role, and
the `elif` chain gives the role lists priority order per cell (note
`"cat"` is among the *sex* keywords). -/
def detectHeaderCols (header : List String) : ColMap :=
  (header.enum.foldl (fun m p =>
    let (i, cell) := p
    if cell = "" then m
    else
      let cl := pyLower cell
      if ["prueba", "disciplina", "evento"].any (fun kw => strContains cl kw) then
        { m with discipline_col := some i }
      else if ["sexo", "género", "cat"].any (fun kw => strContains cl kw) then
        { m with sex_col := some i }
      else if ["hora", "tiempo", "horario", "inicio", "comienzo"].any
          (fun kw => strContains cl kw) then
        { m with time_col := some i }
      else if ["categoría", "categoria"].any (fun kw => strContains cl kw) then
        { m with category_col := some i }
      else m) {})

/-- Step 2 of `PDFParser._parse_events_table`: probe the first three rows for
time-shaped cells, sex markers and known disciplines; only unset roles are
filled, first hit wins. -/
def contentDetectCols (rows : List (List String)) (m0 : ColMap) : ColMap :=
  rows.foldl (fun m row =>
    row.enum.foldl (fun m p =>
      let (i, cell) := p
      if cell = "" then m
      else
        let val := pyStrip cell
        let m := if m.time_col = none && (findTimeToken val.data).isSome then
            { m with time_col := some i } else m
        let m := if m.sex_col = none &&
            ["M", "F", "M-F", "H", "M ASC", "FEM"].any (fun v => pyUpper val = v) then
            { m with sex_col := some i } else m
        if m.discipline_col = none &&
            COMMON_DISCIPLINES.any (fun d => strContains (pyLower val) (pyLower d)) then
          { m with discipline_col := some i } else m) m) m0

/-- One iteration of the data-row loop of `_parse_events_table` (step 3):
skip blank rows, inherit `last_time` into events that parsed without a
time, refresh `last_time` from events that did parse one. -/
def parseTableRowsStep (cols : ColMap) (acc : List Event × Option PyTime)
    (row : List String) : List Event × Option PyTime :=
  if row = [] || row.all (fun c => c = "") then acc
  else match parse_event_row row cols with
    | none => acc
    | some e =>
      if e.scheduled_time = none && acc.2.isSome then
        (acc.1 ++ [{ e with scheduled_time := acc.2 }], acc.2)
      else if e.scheduled_time.isSome then
        (acc.1 ++ [e], e.scheduled_time)
      else (acc.1 ++ [e], acc.2)

/-- The data-row loop of `_parse_events_table`, returning the events and
the final `last_time`. -/
def parseTableRows (rows : List (List String)) (cols : ColMap)
    (initial : Option PyTime) : List Event × Option PyTime :=
  rows.foldl (parseTableRowsStep cols) ([], initial)

/-- `PDFParser._parse_events_table`. -/
def parse_events_table (table : List (List String)) (initial : Option PyTime) :
    List Event :=
  let header := table.headD []
  let cols0 := detectHeaderCols header
  let needsProbe := cols0.discipline_col = none ||
    (cols0.time_col = none && cols0.sex_col = none)
  let cols := if needsProbe then contentDetectCols (table.take 3) cols0 else cols0
  let start : Nat := if needsProbe && cols.discipline_col ≠ none then 0 else 1
  (parseTableRows (table.drop start) cols initial).1

/-- One iteration of the table loop of `_extract_events_from_tables`:
empty tables are skipped; otherwise the table is parsed with the threaded
`last_time` and `last_time` is refreshed from the last produced event that
carries a time (kept unchanged when none does). -/
def extractTablesStep (acc : List Event × Option PyTime)
    (table : List (List String)) : List Event × Option PyTime :=
  if table = [] then acc
  else
    let table_events := parse_events_table table acc.2
    let lt' := match table_events.reverse.find? (fun e => e.scheduled_time.isSome) with
      | some e => e.scheduled_time
      | none => acc.2
    (acc.1 ++ table_events, lt')

/-- `PDFParser._extract_events_from_tables`: tables in sequence, threading
the last seen scheduled time across table boundaries. -/
def extract_events_from_tables (tables : List (List (List String))) : List Event :=
  (tables.foldl extractTablesStep ([], none)).1

/-- Invariant threaded through the data-row fold: every produced time comes
from one of the rows or from the initial threaded time, and the events
split as a time-less block followed by a timed block. -/
abbrev rowsInv (rows : List (List String)) (lt0 : Option PyTime)
    (st : List Event × Option PyTime) : Prop :=
  (∀ e ∈ st.1, ∀ t, e.scheduled_time = some t →
    (∃ row ∈ rows, ∃ cell ∈ row, parse_time (pyStrip cell) = some t) ∨
      lt0 = some t) ∧
  (∀ t, st.2 = some t →
    (∃ row ∈ rows, ∃ cell ∈ row, parse_time (pyStrip cell) = some t) ∨
      lt0 = some t) ∧
  (∃ n s, st.1 = n ++ s ∧
    (∀ e ∈ n, e.scheduled_time = none) ∧
    (∀ e ∈ s, e.scheduled_time.isSome = true) ∧
    (lt0.isSome = true → n = []) ∧
    (st.2 = none → s = [] ∧ lt0 = none))

/-- Invariant threaded through the table-level fold: every produced time
comes from a cell of one of the tables, and the events split as a time-less
block followed by a timed block. -/
abbrev tablesInv (tables : List (List (List String)))
    (st : List Event × Option PyTime) : Prop :=
  (∀ e ∈ st.1, ∀ t, e.scheduled_time = some t →
    ∃ table ∈ tables, ∃ row ∈ table, ∃ cell ∈ row,
      parse_time (pyStrip cell) = some t) ∧
  (∀ t, st.2 = some t →
    ∃ table ∈ tables, ∃ row ∈ table, ∃ cell ∈ row,
      parse_time (pyStrip cell) = some t) ∧
  (∃ n s, st.1 = n ++ s ∧
    (∀ e ∈ n, e.scheduled_time = none) ∧
    (∀ e ∈ s, e.scheduled_time.isSome = true) ∧
    (st.2 = none → s = []))

/-- Adjacency invariant threaded through the data-row fold: each produced
event's time is parsed from one of the processed rows (the event is the
unmodified `parse_event_row` output of that row) or equals the time of the
immediately preceding produced event — for the first produced event, the
initial threaded time; and the threaded time always matches the last
produced event (with none produced, the initial time). -/
abbrev adjRowsInv (rows : List (List String)) (cols : ColMap)
    (lt0 : Option PyTime) (st : List Event × Option PyTime) : Prop :=
  (∀ i, ∀ hi : i < st.1.length, ∀ t,
    (st.1.get ⟨i, hi⟩).scheduled_time = some t →
    (∃ row ∈ rows, parse_event_row row cols = some (st.1.get ⟨i, hi⟩)) ∨
    (∃ j, ∃ hj : j < st.1.length, j + 1 = i ∧
      (st.1.get ⟨j, hj⟩).scheduled_time = some t) ∨
    (i = 0 ∧ lt0 = some t)) ∧
  (∀ t, st.2 = some t →
    (st.1 = [] → lt0 = some t) ∧
    (∀ e, st.1.getLast? = some e → e.scheduled_time = some t))

/-- Adjacency invariant at the document level: each event's time is parsed
from its own row (in one of the tables, under some column map) or equals
the time of the immediately preceding event of the document; the threaded
time always matches the last event produced so far. -/
abbrev adjTablesInv (tables : List (List (List String)))
    (st : List Event × Option PyTime) : Prop :=
  (∀ i, ∀ hi : i < st.1.length, ∀ t,
    (st.1.get ⟨i, hi⟩).scheduled_time = some t →
    (∃ table ∈ tables, ∃ row ∈ table, ∃ cols,
      parse_event_row row cols = some (st.1.get ⟨i, hi⟩)) ∨
    (∃ j, ∃ hj : j < st.1.length, j + 1 = i ∧
      (st.1.get ⟨j, hj⟩).scheduled_time = some t)) ∧
  (∀ t, st.2 = some t →
    ∃ e, st.1.getLast? = some e ∧ e.scheduled_time = some t)

/-! ### pdf_parser: date extraction (`PDFParser._extract_date`) -/

/-- Python `\w` (word character); unicode letters of the Spanish texts are
covered by the `≥ 0xC0` clause. -/
def isWordCh (c : Char) : Bool :=
  c.isAlpha || isDigitCh c || c = '_' || c.toNat ≥ 0xC0

def chCiEq (a b : Char) : Bool := a.toLower = b.toLower

/-- Consume a literal, case-insensitively. -/
def eatCi : List Char → List Char → Option (List Char)
  | [], l => some l
  | _ :: _, [] => none
  | p :: ps, c :: cs => if chCiEq c p then eatCi ps cs else none

/-- Consume a literal, case-sensitively. -/
def eatExact : List Char → List Char → Option (List Char)
  | [], l => some l
  | _ :: _, [] => none
  | p :: ps, c :: cs => if c = p then eatExact ps cs else none

/-- Consume `\s+`. -/
def eatWs1 (l : List Char) : Option (List Char) :=
  let n := (l.takeWhile isWs).length
  if n ≥ 1 then some (l.drop n) else none

/-- Consume exactly `k` digits, returning their value. -/
def eatDigits (k : Nat) (l : List Char) : Option (Nat × List Char) :=
  let pre := l.take k
  if pre.length = k && pre.all isDigitCh then
    some (pre.foldl (fun acc c => acc * 10 + digitVal c) 0, l.drop k)
  else none

/-- Consume `(\w+)` (maximal run). -/
def eatWordRun (l : List Char) : Option (String × List Char) :=
  let run := l.takeWhile isWordCh
  if run.length ≥ 1 then some (String.mk run, l.drop run.length) else none

/-- Leftmost-position search: try the anchored matcher at every position. -/
def scanFirst {α : Type} (f : List Char → Option α) : List Char → Option α
  | [] => f []
  | c :: rest => match f (c :: rest) with
    | some a => some a
    | none => scanFirst f rest

/-- `(\d{1,2})\s+de\s+(\w+)\s+de\s+(\d{4})` anchored (IGNORECASE), greedy
day width tried first. -/
def dateP1At (l : List Char) : Option (Nat × String × Nat) :=
  let tryWidth (w : Nat) : Option (Nat × String × Nat) := do
    let (day, r1) ← eatDigits w l
    let r2 ← eatWs1 r1
    let r3 ← eatCi "de".data r2
    let r4 ← eatWs1 r3
    let (mw, r5) ← eatWordRun r4
    let r6 ← eatWs1 r5
    let r7 ← eatCi "de".data r6
    let r8 ← eatWs1 r7
    let (yr, _) ← eatDigits 4 r8
    pure (day, mw, yr)
  match tryWidth 2 with
  | some g => some g
  | none => tryWidth 1

/-- Numeric date pattern: one or two day digits, a slash or dash, one or two
month digits, a slash or dash, four year digits — anchored, greedy widths,
the rightmost group backtracking first. -/
def dateP2At (l : List Char) : Option (Nat × Nat × Nat) :=
  let isSep (c : Char) : Bool := c = '/' || c = '-'
  let tryW (wd wm : Nat) : Option (Nat × Nat × Nat) := do
    let (day, r1) ← eatDigits wd l
    let r2 ← match r1 with
      | c :: cs => if isSep c then some cs else none
      | [] => none
    let (mo, r3) ← eatDigits wm r2
    let r4 ← match r3 with
      | c :: cs => if isSep c then some cs else none
      | [] => none
    let (yr, _) ← eatDigits 4 r4
    pure (day, mo, yr)
  match tryW 2 2 with
  | some g => some g
  | none => match tryW 2 1 with
    | some g => some g
    | none => match tryW 1 2 with
      | some g => some g
      | none => tryW 1 1

/-- `[Ff]echa[:\s]+(\d{1,2})\s+(?:de\s+)?(\w+)` anchored (IGNORECASE). -/
def dateP3At (l : List Char) : Option (Nat × String) := do
  let r1 ← eatCi "fecha".data l
  let sepRun := r1.takeWhile (fun c => c = ':' || isWs c)
  if sepRun.length = 0 then none
  else
    let r2 := r1.drop sepRun.length
    let dayTry (w : Nat) : Option (Nat × String) := do
      let (day, r3) ← eatDigits w r2
      let r4 ← eatWs1 r3
      -- (?:de\s+)? with the word run after it; backtrack to the empty
      -- alternative when the run after "de " is empty
      let withOpt : Option (Nat × String) := do
        let r5 ← eatCi "de".data r4
        let r6 ← eatWs1 r5
        let (mw, _) ← eatWordRun r6
        pure (day, mw)
      match withOpt with
      | some g => some g
      | none => do
        let (mw, _) ← eatWordRun r4
        pure (day, mw)
    match dayTry 2 with
    | some g => some g
    | none => dayTry 1

def MONTHS_ES : List (String × Nat) := [
  ("enero", 1), ("febrero", 2), ("marzo", 3), ("abril", 4), ("mayo", 5),
  ("junio", 6), ("julio", 7), ("agosto", 8), ("septiembre", 9),
  ("octubre", 10), ("noviembre", 11), ("diciembre", 12)]

def monthLookup (w : String) : Nat :=
  match MONTHS_ES.find? (fun p => p.1 = pyLower w) with
  | some p => p.2
  | none => 0

/-- Python `str.isdigit` on the strings seen here. -/
def pyIsDigit (s : String) : Bool := s.data ≠ [] && s.data.all isDigitCh

/-- `PDFParser._extract_date`: the three `DATE_PATTERNS` in order; a pattern
that matches but yields an invalid month/day falls through to the next
pattern (`continue`).  `today` stands for `date.today()`. -/
def extract_date (text : String) (today : PyDate) : Option PyDate :=
  let l := text.data
  let try1 : Option PyDate :=
    match scanFirst dateP1At l with
    | some (day, mw, yr) =>
      let month := if pyIsDigit mw then (pyInt? mw).getD 0 else monthLookup mw
      if month ≠ 0 && 1 ≤ day && day ≤ 31 then mkDate? yr month day else none
    | none => none
  match try1 with
  | some d => some d
  | none =>
    let try2 : Option PyDate :=
      match scanFirst dateP2At l with
      | some (day, mo, yr) =>
        if mo ≠ 0 && 1 ≤ day && day ≤ 31 then mkDate? yr mo day else none
      | none => none
    match try2 with
    | some d => some d
    | none =>
      match scanFirst dateP3At l with
      | some (day, mw) =>
        let month := monthLookup mw
        if month ≠ 0 then mkDate? today.year month day else none
      | none => none

/-! ### pdf_parser: location extraction (`PDFParser._extract_location`) -/

/-- The character class `[A-Za-záéíóúñÁÉÍÓÚÑ\.\s,]`. -/
def isLocClassCh (c : Char) : Bool :=
  c.isAlpha || "áéíóúñÁÉÍÓÚÑ".data.contains c || c = '.' || isWs c || c = ','

/-- After the keyword: `[:\s]+(?:de\s+|del\s+)?([class]+)`, with the regex
backtracking order (separator run longest first, then the `de`/`del`/empty
alternatives, then a non-empty class run). -/
def locTailAt (l : List Char) : Option String :=
  let k := (l.takeWhile (fun c => c = ':' || isWs c)).length
  let tryAt (rest : List Char) : Option String :=
    let withOpt (lit : String) : Option String := do
      let r1 ← eatExact lit.data rest
      let r2 ← eatWs1 r1
      let run := r2.takeWhile isLocClassCh
      if run.length ≥ 1 then some (String.mk run) else none
    match withOpt "de" with
    | some g => some g
    | none => match withOpt "del" with
      | some g => some g
      | none =>
        let run := rest.takeWhile isLocClassCh
        if run.length ≥ 1 then some (String.mk run) else none
  let rec go : Nat → Option String
    | 0 => none
    | j + 1 => match tryAt (l.drop (j + 1)) with
      | some g => some g
      | none => go j
  if k = 0 then none else go k

/-- The four `LOCATION_PATTERNS`, each anchored at a position. -/
def locP1At (l : List Char) : Option String :=
  match l with
  | c :: rest =>
    if c = 'L' || c = 'l' then
      match eatExact "ugar".data rest with
      | some r => locTailAt r
      | none => none
    else none
  | [] => none

def locP2At (l : List Char) : Option String :=
  match l with
  | c :: rest =>
    if c = 'I' || c = 'i' then do
      let r1 ← eatExact "nstalaci".data rest
      match r1 with
      | o :: r2 =>
        if o = 'o' || o = 'ó' then do
          let r3 ← eatExact "n".data r2
          locTailAt r3
        else none
      | [] => none
    else none
  | [] => none

def locP3At (l : List Char) : Option String :=
  match l with
  | c :: rest =>
    if c = 'S' || c = 's' then
      match eatExact "ede".data rest with
      | some r => locTailAt r
      | none => none
    else none
  | [] => none

def locP4At (l : List Char) : Option String :=
  let lit (w : String) : Option String :=
    (eatExact w.data l).map (fun _ => w)
  match lit "Gallur" with
  | some g => some g
  | none => match lit "Vallehermoso" with
    | some g => some g
    | none => match lit "Moratalaz" with
      | some g => some g
      | none => match lit "Getafe" with
        | some g => some g
        | none => do
          let r ← eatExact "Polideportivo".data l
          let run := r.takeWhile (fun c => c ≠ ',' && c ≠ '\n' && c ≠ '.')
          if run.length ≥ 1 then some ("Polideportivo" ++ String.mk run) else none

/-- group(1).strip(), whitespace collapse, 100-character cap. -/
def processLocation (g : String) : String :=
  let s1 := collapseWs (stripList g.data)
  String.mk (if s1.length > 100 then s1.take 100 else s1)

/-- `PDFParser._extract_location`. -/
def extract_location (text : String) : Option String :=
  let l := text.data
  match scanFirst locP1At l with
  | some g => some (processLocation g)
  | none => match scanFirst locP2At l with
    | some g => some (processLocation g)
    | none => match scanFirst locP3At l with
      | some g => some (processLocation g)
      | none => match scanFirst locP4At l with
        | some g => some (processLocation g)
        | none => none

/-! ### pdf_parser: name extraction (`PDFParser._extract_name`) -/

def NAME_KEYWORDS : List String :=
  ["campeonato", "copa", "trophy", "trofeo", "memorial", "meeting",
   "control", "pruebas", "jornada"]

/-- `PDFParser._extract_name`. -/
def extract_name (text : String) : String :=
  let lines := (pySplit '\n' text).take 10
  match lines.find? (fun line =>
      NAME_KEYWORDS.any (fun kw => strContains (pyLower line) kw)) with
  | some line =>
    let n := collapseWs (stripList line.data)
    String.mk (if n.length > 150 then n.take 150 else n)
  | none => "Competición"

/-! ### pdf_parser: text fallback (`PDFParser._extract_events_from_text`) -/

/-- Anchored match of a digit run of length 2..5, `\s*`, `m`, optional
`etros`/`etro` (IGNORECASE): returns (match length, digit group). -/
def textRunMAt (l : List Char) : Option (Nat × String) :=
  let run := l.takeWhile isDigitCh
  let r := run.length
  if 2 ≤ r && r ≤ 5 then
    let afterD := l.drop r
    let w := (afterD.takeWhile isWs).length
    match afterD.drop w with
    | m :: rest =>
      if chCiEq m 'm' then
        let ext := match eatCi "etros".data rest with
          | some _ => 5
          | none => match eatCi "etro".data rest with
            | some _ => 4
            | none => 0
        some (r + w + 1 + ext, String.mk run)
      else none
    | [] => none
  else none

/-- Anchored match of digits, `\s*`, optional `metros `/`metro `, a keyword
(`valla`/`obstáculo`) and an optional trailing `s` (IGNORECASE). -/
def textRunKwAt (kw : String) (l : List Char) : Option (Nat × String) :=
  let run := l.takeWhile isDigitCh
  let r := run.length
  if r ≥ 1 then
    let afterD := l.drop r
    let w := (afterD.takeWhile isWs).length
    let rest := afterD.drop w
    let tryKw (pre : String) : Option Nat := do
      let r1 ← eatCi pre.data rest
      let r2 ← eatCi kw.data r1
      let s := match r2 with
        | c :: _ => if chCiEq c 's' then 1 else 0
        | [] => 0
      pure (pre.length + kw.length + s)
    let tailLen : Option Nat :=
      match tryKw "metros " with
      | some n => some n
      | none => match tryKw "metro " with
        | some n => some n
        | none => tryKw ""
    match tailLen with
    | some n => some (r + w + n, String.mk run)
    | none => none
  else none

/-- Anchored case-insensitive literal keyword; the group is the original
slice of the text. -/
def textKwAt (kw : String) (l : List Char) : Option (Nat × String) :=
  match eatCi kw.data l with
  | some _ => some (kw.length, String.mk (l.take kw.length))
  | none => none

/-- Anchored `(triple\s+salto?)` (IGNORECASE); group is the original slice. -/
def textTripleAt (l : List Char) : Option (Nat × String) := do
  let r1 ← eatCi "triple".data l
  let w := (r1.takeWhile isWs).length
  if w = 0 then none
  else do
    let r2 ← eatCi "salt".data (r1.drop w)
    let o := match r2 with
      | c :: _ => if chCiEq c 'o' then 1 else 0
      | [] => 0
    let len := 6 + w + 4 + o
    pure (len, String.mk (l.take len))

/-- Anchored `(pértiga|pertiga)` (IGNORECASE); group is the original slice. -/
def textPertigaAt (l : List Char) : Option (Nat × String) :=
  match eatCi "pértiga".data l with
  | some _ => some (7, String.mk (l.take 7))
  | none => match eatCi "pertiga".data l with
    | some _ => some (7, String.mk (l.take 7))
    | none => none

/-- `re.finditer`: non-overlapping leftmost matches with their spans. -/
def finditerAux (f : List Char → Option (Nat × String)) :
    Nat → Nat → List Char → List (Nat × Nat × String)
  | 0, _, _ => []
  | _ + 1, _, [] => []
  | fuel + 1, pos, c :: rest =>
    match f (c :: rest) with
    | some (len, g) =>
      (pos, pos + len, g) :: finditerAux f fuel (pos + len) ((c :: rest).drop len)
    | none => finditerAux f fuel (pos + 1) rest

def finditer (f : List Char → Option (Nat × String)) (l : List Char) :
    List (Nat × Nat × String) :=
  finditerAux f (l.length + 1) 0 l

/-- The `discipline_patterns` list of `_extract_events_from_text`, in source
order, paired with the forced event type. -/
def TEXT_PATTERNS : List ((List Char → Option (Nat × String)) × EventType) := [
  (textRunMAt, EventType.carrera),
  (textRunKwAt "valla", EventType.carrera),
  (textRunKwAt "obstáculo", EventType.carrera),
  (textKwAt "altura", EventType.concurso),
  (textKwAt "longitud", EventType.concurso),
  (textTripleAt, EventType.concurso),
  (textPertigaAt, EventType.concurso),
  (textKwAt "peso", EventType.concurso),
  (textKwAt "disco", EventType.concurso),
  (textKwAt "martillo", EventType.concurso),
  (textKwAt "jabalina", EventType.concurso)]

/-- `PDFParser._extract_events_from_text`. -/
def extract_events_from_text (text : String) : List Event :=
  let l := text.data
  TEXT_PATTERNS.foldl (fun events p =>
    let (f, event_type) := p
    (finditer f l).foldl (fun events m =>
      let (s, e, g) := m
      let discipline0 :=
        if event_type = EventType.carrera && pyIsDigit g then g ++ "m" else g
      let discipline := normalize_discipline discipline0
      let cs := s - 50
      let ce := min l.length (e + 50)
      let context := pyLower (String.mk ((l.drop cs).take (ce - cs)))
      let sex := if strContains context "femen" || strContains context "mujer" then
          Sex.femenino else Sex.masculino
      if events.any (fun ev => ev.discipline = discipline && ev.sex = sex) then
        events
      else
        events ++ [{ discipline := discipline, event_type := event_type,
                     sex := sex }]) events) []

/-! ### pdf_parser: `PDFParser.parse` over a pdfplumber oracle -/

/-- `Competition` of src/scraper/models.py (lines 76-104).  The dataclass
declares no `enrollment_url` field; the job layer nevertheless reads that
attribute, which raises `AttributeError` — see `scraperEnrollmentUrl`. -/
structure Competition where
  name : String
  competition_date : PyDate
  location : String
  pdf_url : Option String
  pdf_hash : Option String := none
  has_modifications : Bool := false
  competition_type : Option String := none
  events : List Event := []
  deriving DecidableEq, Repr

/-- One pdfplumber page as an oracle: the outcome of `extract_text`
(`.ok ""` also standing for a `None` result, via `or ""`) and of
`extract_tables` (`.ok []` likewise standing for `None`, via `or []`);
`.error` is a raised exception. -/
structure PdfPage where
  text : Except String String
  tables : Except String (List (List (List String)))
  deriving Repr

/-- The outcome of `pdfplumber.open`: pages, or a raised exception for
bytes that cannot be opened. -/
abbrev PdfOpenResult := Except String (List PdfPage)

/-- The page loop of `PDFParser.parse`: accumulate text (plus `"\n"` per
page) and tables; any page-level exception propagates. -/
def collectPages : List PdfPage → Except String (String × List (List (List String)))
  | [] => Except.ok ("", [])
  | p :: rest => do
    let t ← p.text
    let ts ← p.tables
    let (restText, restTables) ← collectPages rest
    pure (t ++ "\n" ++ restText, ts ++ restTables)

/-- `PDFParser.parse`.  The whole body runs inside one `try`, so any raised
exception — opening failure or a per-page extraction failure — surfaces as
`PDFParserError` (here `Except.error`); everything else degrades to
defaults.  `today` stands for `date.today()` and `pdfHash` for
`calculate_pdf_hash(pdf_content)`. -/
def pdf_parse (openRes : PdfOpenResult) (today : PyDate) (pdfHash : String)
    (name : String := "") (pdf_url : String := "")
    (has_modifications : Bool := false)
    (competition_type : Option String := none) : Except String Competition :=
  match openRes with
  | Except.error e => Except.error ("Error parseando PDF: " ++ e)
  | Except.ok pages =>
    match collectPages pages with
    | Except.error e => Except.error ("Error parseando PDF: " ++ e)
    | Except.ok (full_text, all_tables) =>
      let competition_date := (extract_date full_text today).getD today
      let location := (extract_location full_text).getD "Lugar no especificado"
      let events0 := extract_events_from_tables all_tables
      let events := if events0 = [] then extract_events_from_text full_text else events0
      Except.ok {
        name := if name ≠ "" then name else extract_name full_text,
        competition_date := competition_date,
        location := location,
        pdf_url := some pdf_url,
        pdf_hash := some pdfHash,
        has_modifications := has_modifications,
        competition_type := competition_type,
        events := events }

/-! ### src/scraper/web_scraper.py: dates and highlight detection -/

def MONTHS_BY_NUMBER : List (Nat × String) :=
  MONTHS_ES.map (fun p => (p.2, p.1))

/-- Anchored `re.match` of `(\d{1,2})y(\d{1,2})\.(\d{2})`. -/
def rangeDateMatch (l : List Char) : Option (Nat × Nat × Nat) :=
  let tryW (w1 w2 : Nat) : Option (Nat × Nat × Nat) := do
    let (d1, r1) ← eatDigits w1 l
    let r2 ← eatExact "y".data r1
    let (d2, r3) ← eatDigits w2 r2
    let r4 ← eatExact ".".data r3
    let (mo, _) ← eatDigits 2 r4
    pure (d1, d2, mo)
  match tryW 2 2 with
  | some g => some g
  | none => match tryW 2 1 with
    | some g => some g
    | none => match tryW 1 2 with
      | some g => some g
      | none => tryW 1 1

/-- Anchored `re.match` of the comma-date pattern: up to three
comma-separated days (one or two digits each), a slash or dash, and a
one-or-two-digit month. -/
def commaDateMatch (l : List Char) : Option (List Nat × Nat) :=
  let isSep (c : Char) : Bool := c = '/' || c = '-'
  let eatSepMonth (r : List Char) : Option Nat := do
    let r1 ← match r with
      | c :: cs => if isSep c then some cs else none
      | [] => none
    match eatDigits 2 r1 with
    | some (mo, _) => pure mo
    | none => do
      let (mo, _) ← eatDigits 1 r1
      pure mo
  let tryDays (w1 : Nat) : Option (List Nat × Nat) := do
    let (d1, r1) ← eatDigits w1 l
    let r2 ← eatExact ",".data r1
    let dayTail (w2 : Nat) : Option (List Nat × Nat) := do
      let (d2, r3) ← eatDigits w2 r2
      let withThird (w3 : Nat) : Option (List Nat × Nat) := do
        let r4 ← eatExact ",".data r3
        let (d3, r5) ← eatDigits w3 r4
        let mo ← eatSepMonth r5
        pure ([d1, d2, d3], mo)
      match withThird 2 with
      | some g => some g
      | none => match withThird 1 with
        | some g => some g
        | none => do
          let mo ← eatSepMonth r3
          pure ([d1, d2], mo)
    match dayTail 2 with
    | some g => some g
    | none => dayTail 1
  match tryDays 2 with
  | some g => some g
  | none => tryDays 1

/-- Zero-padded two-digit rendering used by the `f"{int(day):02d}"` format. -/
def fmt02 (n : Nat) : String :=
  if n < 10 then "0" ++ toString n else toString n

/-- `WebScraper._extract_additional_dates`.  The year written into the
additional dates is `date.today().year` (`today` parameter), not the
scraped month/year context. -/
def extract_additional_dates (date_str : String) (today : PyDate) : List String :=
  let l := date_str.data
  let fromRange : List String :=
    match rangeDateMatch l with
    | some (d1, d2, mo) =>
      if d1 ≠ d2 then [fmt02 d2 ++ "/" ++ fmt02 mo ++ "/" ++ toString today.year]
      else []
    | none => []
  let fromComma : List String :=
    match commaDateMatch l with
    | some (days, mo) =>
      if days.length > 1 then
        (days.drop 1).map (fun d => fmt02 d ++ "/" ++ fmt02 mo ++ "/" ++ toString today.year)
      else []
    | none => []
  fromRange ++ fromComma

/-- `re.sub(r"\s*\([^)]*\)", "", s)`: delete whitespace-prefixed
parenthesised groups. -/
def stripParenAux : Nat → List Char → List Char
  | 0, l => l
  | _ + 1, [] => []
  | fuel + 1, c :: rest =>
    let l := c :: rest
    let w := (l.takeWhile isWs).length
    match l.drop w with
    | '(' :: r1 =>
      let inner := (r1.takeWhile (fun ch => ch ≠ ')')).length
      match r1.drop inner with
      | ')' :: r2 => stripParenAux fuel r2
      | _ => c :: stripParenAux fuel rest
    | _ => c :: stripParenAux fuel rest

def stripParen (l : List Char) : List Char := stripParenAux l.length l

/-- Anchored `re.match` of `(\d{1,2})\.(\d{2})`. -/
def simpleDateMatch (l : List Char) : Option (Nat × Nat) :=
  let tryW (w : Nat) : Option (Nat × Nat) := do
    let (d, r1) ← eatDigits w l
    let r2 ← eatExact ".".data r1
    let (mo, _) ← eatDigits 2 r2
    pure (d, mo)
  match tryW 2 with
  | some g => some g
  | none => tryW 1

def monthNameByNumber (n : Nat) : String :=
  match MONTHS_BY_NUMBER.find? (fun p => p.1 = n) with
  | some p => p.2
  | none => "mes " ++ fmt02 n

/-- `WebScraper._normalize_date` (the `month` parameter is unused in the
source, `year` names the scraped season). -/
def normalize_date (date_str : String) (year : Nat) : String :=
  if date_str = "" then ""
  else
    let cleaned := pyStrip (String.mk (stripParen date_str.data))
    match rangeDateMatch cleaned.data with
    | some (d1, d2, mo) =>
      toString d1 ++ "-" ++ toString d2 ++ " " ++ monthNameByNumber mo ++ " " ++ toString year
    | none =>
      match simpleDateMatch cleaned.data with
      | some (d, mo) =>
        toString d ++ " " ++ monthNameByNumber mo ++ " " ++ toString year
      | none => cleaned

/-- `WebScraper._has_highlight_background`: the style attribute of the
element, if any, inspected for the fixed highlight palette. -/
def has_highlight_background (style : Option String) : Bool :=
  match style with
  | none => false
  | some style =>
    if style = "" then false
    else
      let sl := pyLower style
      ["#ebffaa", "yellow", "#ffff", "#ff0", "#ffc", "#ffd", "#ffe"].any
        (fun color => strContains sl color)

/-! ### web_scraper: calendar rows (`WebScraper.parse_calendar_html`) -/

/-- A calendar entry: `RawCompetition` of src/scraper/models.py (lines
27-47).  The committed dataclass declares exactly these fields — in
particular no `enrollment_url` (reading that attribute raises
`AttributeError`, see `rawEnrollmentUrl`) and no `fechas_adicionales`
(the dynamic assignment in `_parse_real_competition_row` sits after the
constructor call that raises, so it never executes).  `__post_init__` only
rewrites `pdf_url` to an absolute URL; the theorems below quantify over
every value of the field, which subsumes that normalisation. -/
structure RawCompetition where
  name : String
  date_str : String
  pdf_url : String
  has_modifications : Bool := false
  location : Option String := none
  competition_type : Option String := none
  deriving DecidableEq, Repr

/-- The `TypeError` raised by `RawCompetition(..., enrollment_url=...)`:
the dataclass declares no such parameter (web_scraper.py line 224 versus
models.py lines 27-47). -/
def rawCompetitionTypeError : String :=
  "TypeError: RawCompetition.__init__() got an unexpected keyword argument enrollment_url"

/-- The attribute access `raw_comp.enrollment_url` (jobs.py lines 89 and
117): the committed `RawCompetition` dataclass has no such field, so the
access always raises `AttributeError` — the `Empty` payload records that
no success value exists. -/
def rawEnrollmentUrl (_ : RawCompetition) : Except String Empty :=
  Except.error "AttributeError: RawCompetition object has no attribute enrollment_url"

/-- The attribute access `competition.enrollment_url` on the scraper
`Competition` (jobs.py line 163): the dataclass (models.py lines 76-91)
declares no such field, so the access always raises `AttributeError`. -/
def scraperEnrollmentUrl (_ : Competition) : Except String Empty :=
  Except.error "AttributeError: Competition object has no attribute enrollment_url"

/-- A table cell as the row parser consumes it: its stripped text
(`get_text(strip=True)`) and the `href` of its first anchor, if any. -/
structure HtmlCell where
  text : String
  linkHref : Option String := none
  deriving DecidableEq, Repr

/-- A calendar table row: its cells and its inline `style` attribute. -/
structure HtmlRow where
  cells : List HtmlCell
  style : Option String := none
  deriving DecidableEq, Repr

/-- `urllib.parse.urljoin(base, url)` restricted to the shapes the calendar
produces: absolute URLs pass through, root-relative paths are appended to
the base (the configured base URL carries no path). -/
def urljoin (base url : String) : String :=
  if strContains url "://" then url else base ++ url

/-- `WebScraper._parse_real_competition_row` (web_scraper.py lines
163-234): five-column layout (date, name, venue, documents, enrollment);
rows with fewer than five cells, no name or no document link return `None`
(`Except.ok none`).  Every remaining row reaches the constructor call
`RawCompetition(..., enrollment_url=enrollment_url, ...)` at line 224,
which raises `TypeError` because the committed dataclass declares no such
parameter (`Except.error`); the hard-coded `has_modifications = False`
(line 208), the `_has_highlight_background` palette test and the dynamic
`fechas_adicionales` assignment after the constructor are therefore never
reflected in any produced entry.  `today` feeds
`_extract_additional_dates`, `month`/`year` are the scraped-period hints
(`month` is unused by `_normalize_date`, as in the source). -/
def parse_real_competition_row (base_url : String) (today : PyDate)
    (_month year : Nat) (row : HtmlRow) :
    Except String (Option RawCompetition) :=
  let cells := row.cells
  if cells.length < 5 then Except.ok none
  else
    let date_str := (cells.getD 0 ⟨"", none⟩).text
    let _fechas_adicionales := extract_additional_dates date_str today
    let name := (cells.getD 1 ⟨"", none⟩).text
    let _location :=
      let t := (cells.getD 2 ⟨"", none⟩).text
      if t = "" then none else some t
    let pdf_url : Option String :=
      match (cells.getD 3 ⟨"", none⟩).linkHref with
      | some h => if h ≠ "" then some (urljoin base_url h) else none
      | none => none
    let _enrollment_url : Option String :=
      match (cells.getD 4 ⟨"", none⟩).linkHref with
      | some h => if h ≠ "" then some (urljoin base_url h) else none
      | none => none
    if name = "" || pdf_url = none then Except.ok none
    else
      let _normalized_date := normalize_date date_str year
      Except.error rawCompetitionTypeError

/-- The row loop of `parse_calendar_html`: rows yielding `None` are
skipped, parsed rows are appended, and a raised exception propagates (the
loop body has no try/except). -/
def parseCalRows (base_url : String) (today : PyDate)
    (month year : Nat) : List HtmlRow → List RawCompetition →
    Except String (List RawCompetition)
  | [], acc => Except.ok acc
  | r :: rest, acc =>
    match parse_real_competition_row base_url today month year r with
    | Except.error e => Except.error e
    | Except.ok none => parseCalRows base_url today month year rest acc
    | Except.ok (some c) => parseCalRows base_url today month year rest (acc ++ [c])

/-- `WebScraper.parse_calendar_html`, given the rows of the located
calendar table (`find_all("tr")`): the first row (header) is skipped and
the remaining rows are folded through the row parser; any exception a row
raises escapes the function (the caller `get_competitions` rewraps it as
`WebScraperError` and the month is skipped). -/
def parse_calendar_html (base_url : String) (today : PyDate)
    (tableRows : List HtmlRow) (default_month default_year : Nat) :
    Except String (List RawCompetition) :=
  parseCalRows base_url today default_month default_year (tableRows.drop 1) []

/-! ### src/database/repositories/competition.py: `upsert_with_hash`

The relational store is embedded as an explicit list of competition rows
plus a fresh-id counter.  Events are stored inline in the row they belong
to (the source replaces them wholesale by deleting and re-adding `Event`
rows keyed by `competition_id`). -/

/-- One stored `Event` row, with the fields the job layer passes
(`event_type` and `sex` as their string values). -/
structure EventData where
  discipline : String
  event_type : String
  sex : String
  scheduled_time : Option PyTime
  category : String
  deriving DecidableEq, Repr

/-- One stored `Competition` row (src/database/models.py).  `pdf_url` is a
`NOT NULL` column (models.py line 51), hence a plain `String`. -/
structure DbCompetition where
  id : Nat
  pdf_url : String
  pdf_hash : Option String
  name : String
  competition_date : PyDate
  location : String
  has_modifications : Bool
  competition_type : Option String
  enrollment_url : Option String
  events : List EventData
  fechas_adicionales : List PyDate
  deriving DecidableEq, Repr

structure Db where
  comps : List DbCompetition
  nextId : Nat
  deriving DecidableEq, Repr

/-- Store well-formedness: ids are pairwise distinct and below the fresh-id
counter (what the database's autoincrement primary key guarantees). -/
def dbWf (db : Db) : Prop :=
  (∀ c ∈ db.comps, c.id < db.nextId) ∧ (db.comps.map DbCompetition.id).Nodup

/-- `CompetitionRepository.get_by_pdf_url_and_name` (first matching row;
the source's `scalar_one_or_none` agrees on stores with at most one
match). -/
def get_by_pdf_url_and_name (db : Db) (pdf_url : String) (name : String) :
    Option DbCompetition :=
  db.comps.find? (fun c => c.pdf_url = pdf_url && c.name = name)

/-- The argument tuple of `upsert_with_hash`. -/
structure UpsertArgs where
  pdf_url : Option String
  pdf_hash : Option String
  name : String
  competition_date : PyDate
  location : String
  has_modifications : Bool := false
  competition_type : Option String := none
  enrollment_url : Option String := none
  events : Option (List EventData) := none
  fechas_adicionales : Option (List PyDate) := none
  deriving DecidableEq, Repr

/-- The in-place field update applied to a matched competition (`update`
plus the event/additional-date replacement of `upsert_with_hash`). -/
def updatedComp (c : DbCompetition) (a : UpsertArgs) : DbCompetition :=
  { c with
    pdf_hash := a.pdf_hash,
    name := a.name,
    competition_date := a.competition_date,
    location := a.location,
    has_modifications := a.has_modifications,
    competition_type := a.competition_type,
    enrollment_url := a.enrollment_url,
    fechas_adicionales :=
      match a.fechas_adicionales with
      | some fs => fs
      | none => c.fechas_adicionales,
    events :=
      match a.events with
      | some es => es
      | none => c.events }

/-- The freshly created competition row of the create branch; `u` is the
present document URL (`create` flushes, and a `None` URL violates the
`NOT NULL` constraint instead of reaching this row — see
`upsert_with_hash`). -/
def newComp (db : Db) (a : UpsertArgs) (u : String) : DbCompetition :=
  { id := db.nextId,
    pdf_url := u,
    pdf_hash := a.pdf_hash,
    name := a.name,
    competition_date := a.competition_date,
    location := a.location,
    has_modifications := a.has_modifications,
    competition_type := a.competition_type,
    enrollment_url := a.enrollment_url,
    events := (a.events).getD [],
    fechas_adicionales := (a.fechas_adicionales).getD [] }

/-- The `IntegrityError` the flush inside `create` raises when the
`NOT NULL` column `competitions.pdf_url` receives `None`
(database/models.py line 51, repositories/base.py line 32). -/
def pdfUrlIntegrityError : String :=
  "IntegrityError: NOT NULL constraint failed: competitions.pdf_url"

/-- `CompetitionRepository.upsert_with_hash`: on success, the new store,
the id of the affected competition, and the `is_new_or_updated` flag.  The
lookup runs only `if pdf_url` is truthy (neither `None` nor `""`); the
create branch calls `create`, whose immediate flush raises
`IntegrityError` when `pdf_url` is `None` (the column is `NOT NULL`),
while an empty-string URL is stored. -/
def upsert_with_hash (db : Db) (a : UpsertArgs) :
    Except String (Db × Nat × Bool) :=
  let existing : Option DbCompetition :=
    match a.pdf_url with
    | some u => if u ≠ "" then get_by_pdf_url_and_name db u a.name else none
    | none => none
  match existing with
  | some c =>
    if c.pdf_hash = a.pdf_hash && c.enrollment_url = a.enrollment_url then
      Except.ok (db, c.id, false)
    else
      let comps' := db.comps.map (fun x => if x.id = c.id then updatedComp c a else x)
      Except.ok (⟨comps', db.nextId⟩, c.id, true)
  | none =>
    match a.pdf_url with
    | none => Except.error pdfUrlIntegrityError
    | some u =>
      Except.ok (⟨db.comps ++ [newComp db a u], db.nextId + 1⟩, db.nextId, true)

/-! ### src/scheduler/jobs.py: per-entry processing of `scraping_job`

The inner loop body of `scraping_job` (jobs.py lines 73-183) over the
committed dataclasses.  The body never completes: for a PDF entry the
`parser.parse(..., enrollment_url=raw_comp.enrollment_url, ...)` call
raises `AttributeError` while evaluating its kwargs (caught by the inner
`except`, leaving `competition = None`), and the fallback
`Competition(..., enrollment_url=raw_comp.enrollment_url, ...)` at lines
112-124 raises the same `AttributeError` out to the per-entry handler,
which logs and drops the entry.  The code after the fallback — the
`events_data` build, the additional-dates block with its
`day, month, year = parts` shadowing (line 147) and the upsert call — is
unreachable, so the month-loop variables are never shadowed and nothing is
ever persisted. -/

/-- Oracle for `scraper.download_pdf` on one entry: the bytes arrived, or
the download raised `requests.RequestException`. -/
inductive PdfOutcome where
  | fetched
  | fetchFailed
  deriving DecidableEq, Repr

/-- The inner try of jobs.py lines 83-97.  A failed download raises; for a
successful download the `parser.parse(...)` call evaluates the kwarg
`raw_comp.enrollment_url`, which raises `AttributeError` (the parse body
is never entered — `parse` also declares no `enrollment_url` parameter).
Either exception is caught by the `except Exception`, leaving
`competition = None`. -/
def innerPdfTry (e : RawCompetition) (outcome : PdfOutcome) :
    Option Competition :=
  match outcome with
  | PdfOutcome.fetchFailed => none
  | PdfOutcome.fetched =>
    match rawEnrollmentUrl e with
    | Except.error _ => none
    | Except.ok h => h.elim

/-- The fallback `comp_date` computation (jobs.py lines 106-110): `try` a
`"DD/MM"` split of `date_str`, and on any exception
`date(year, month, 1)`, whose own failure (`none`) escapes to the
per-entry handler. -/
def fallbackCompDate (year month : Nat) (date_str : String) : Option PyDate :=
  let tryBranch : Option PyDate :=
    match pySplit '/' date_str with
    | [p1, p2] => do
      let d ← pyInt? p1
      let m ← pyInt? p2
      mkDate? year m d
    | _ => none
  match tryBranch with
  | some d => some d
  | none => mkDate? year month 1

/-- The fallback block of jobs.py lines 100-124: `comp_date` is computed
first, then the `Competition(...)` constructor call evaluates the kwarg
`raw_comp.enrollment_url`, which raises `AttributeError` out of the
per-entry try (the committed `RawCompetition` has no such field; even with
the attribute present, the scraper `Competition` dataclass declares no
`enrollment_url` parameter either). -/
def fallbackCompetition (year month : Nat) (e : RawCompetition) :
    Except String Competition :=
  match fallbackCompDate year month e.date_str with
  | none => Except.error "ValueError: day is out of range for month"
  | some _d =>
    match rawEnrollmentUrl e with
    | Except.error err => Except.error err
    | Except.ok h => h.elim

/-- The `competition`-producing prefix of the per-entry body (jobs.py
lines 77-124): the PDF attempt, then the fallback when it yielded
nothing.  The rest of the body (lines 126-178) runs only on a produced
`Competition`. -/
def entryBody (year month : Nat) (e : RawCompetition)
    (outcome : PdfOutcome) : Except String Competition :=
  let is_pdf : Bool := e.pdf_url ≠ "" && strContains (pyLower e.pdf_url) ".pdf"
  let competition : Option Competition :=
    if is_pdf then innerPdfTry e outcome else none
  match competition with
  | some c => Except.ok c
  | none => fallbackCompetition year month e

/-- One iteration of the per-entry loop (jobs.py lines 75-183): an
exception anywhere in the body reaches the per-entry `except`, which logs
the error and leaves the store untouched (`1` error counted).  Were a
`Competition` ever produced, the upsert call would still evaluate
`competition.enrollment_url` (line 163), an attribute the scraper
dataclass does not declare, and the resulting `AttributeError` would drop
the entry the same way. -/
def processEntry (year month : Nat) (db : Db) (e : RawCompetition)
    (outcome : PdfOutcome) : Db × Nat :=
  match entryBody year month e outcome with
  | Except.error _ => (db, 1)
  | Except.ok c =>
    match scraperEnrollmentUrl c with
    | Except.error _ => (db, 1)
    | Except.ok h => h.elim

/-- The full per-month entry loop: every entry is processed in turn with
the store threaded and the error count accumulated; an exception in one
entry never aborts the rest. -/
def processEntries (year month : Nat) (db : Db)
    (entries : List (RawCompetition × PdfOutcome)) : Db × Nat :=
  entries.foldl (fun st p =>
    let r := processEntry year month st.1 p.1 p.2
    (r.1, st.2 + r.2)) (db, 0)

/-! ### Concrete scenario inputs used by the claim theorems -/

/-- The spec's reference PDF table: header
`["Prueba","Sexo","Hora","Categoría"]` with two data rows. -/
def specTable : List (List String) :=
  [["Prueba", "Sexo", "Hora", "Categoría"],
   ["60m", "M", "10:00", "Senior"],
   ["Altura", "F", "11:00", "Sub23"]]

/-- The first event the reference table produces. -/
def specEvent60 : Event :=
  { discipline := "60", event_type := EventType.carrera,
    sex := Sex.masculino, category := "", scheduled_time := some ⟨10, 0⟩ }

/-- A table whose discipline cell holds only a time token. -/
def timeOnlyTable : List (List String) :=
  [["Prueba", "Sexo", "Hora"],
   ["10:30", "M", "10:30"]]

/-- A second table whose data row carries no time of its own. -/
def noTimeTable : List (List String) :=
  [["Prueba", "Sexo", "Hora"],
   ["Altura", "F", ""]]

/-- The spec's calendar fragment: a header row and three data rows — one
plain, one with the `#EBFFAA` background style, one with a yellow inline
style. -/
def calHeaderRow : HtmlRow :=
  { cells := [⟨"Fecha", none⟩, ⟨"Competición", none⟩, ⟨"Lugar", none⟩,
              ⟨"Documentos", none⟩, ⟨"Inscripciones", none⟩] }

def calPlainRow : HtmlRow :=
  { cells := [⟨"03/01/2026", none⟩, ⟨"Copa Madrid - Reunión Gallur", none⟩,
              ⟨"Gallur", none⟩, ⟨"PDF", some "/pdfs/a.pdf"⟩,
              ⟨"Inscribirse", some "https://inscripciones.fam.es"⟩] }

def calEbffaaRow : HtmlRow :=
  { cells := [⟨"17/01/2026", none⟩, ⟨"Campeonato de Madrid Sub23", none⟩,
              ⟨"Gallur", none⟩, ⟨"PDF", some "/pdfs/b.pdf"⟩,
              ⟨"Inscribirse", some "https://inscripciones.fam.es"⟩],
    style := some "background:#EBFFAA;font-style:italic;" }

def calYellowRow : HtmlRow :=
  { cells := [⟨"24/01/2026", none⟩, ⟨"Memorial Vallehermoso", none⟩,
              ⟨"Vallehermoso", none⟩, ⟨"PDF", some "/pdfs/c.pdf"⟩,
              ⟨"Inscribirse", some "https://inscripciones.fam.es"⟩],
    style := some "background: yellow" }

def calRows : List HtmlRow := [calHeaderRow, calPlainRow, calEbffaaRow, calYellowRow]

/-- Scheduler scenario: a calendar entry whose document link is a PDF and
whose download fails. -/
def entryFailing : RawCompetition :=
  { name := "Control B", date_str := "3 enero 2026",
    pdf_url := "http://fam/b.pdf", location := some "Moratalaz" }

/-! ## Claim theorems -/

/-- C1 — counterexample.  The claim's expected output on the reference
table (categories `"Senior"` and `"Sub23"`) is not what the extraction
produces. -/
theorem C1_counterexample :
    extract_events_from_tables [specTable] ≠
      [{ discipline := "60", event_type := EventType.carrera,
         sex := Sex.masculino, category := "Senior",
         scheduled_time := some ⟨10, 0⟩ },
       { discipline := "Altura", event_type := EventType.concurso,
         sex := Sex.femenino, category := "Sub23",
         scheduled_time := some ⟨11, 0⟩ }] := by
  decide

/-- C1 (amended): the reference table yields exactly the two claimed
events — track/male/60/10:00 and field/female/Altura/11:00 — but with
empty categories: the header keyword `"cat"` in the sex list claims the
`Categoría` column for `sex_col`, so `category_col` is never assigned
(the sexes are still recovered by the whole-row fallback). -/
theorem C1_pdf_table_extraction :
    extract_events_from_tables [specTable] =
      [{ discipline := "60", event_type := EventType.carrera,
         sex := Sex.masculino, category := "",
         scheduled_time := some ⟨10, 0⟩ },
       { discipline := "Altura", event_type := EventType.concurso,
         sex := Sex.femenino, category := "",
         scheduled_time := some ⟨11, 0⟩ }] ∧
    detectHeaderCols ["Prueba", "Sexo", "Hora", "Categoría"] =
      { discipline_col := some 0, sex_col := some 3, time_col := some 2,
        category_col := none } := by
  constructor
  · decide
  · decide

/-- C3 — the three-row fragment yields no entries at all: every valid row
reaches the `RawCompetition(..., enrollment_url=...)` constructor call
(web_scraper.py line 224), which raises `TypeError` because the committed
dataclass declares no such field, and `parse_calendar_html` has no
per-row exception handling, so the whole call raises on the first data
row.  The palette test `_has_highlight_background` does recognise both
styled rows and rejects the plain one, but it is never called on this
path — and the row parser additionally hard-codes
`has_modifications = False` (line 208). -/
theorem C3_row_constructor_raises :
    parse_calendar_html "https://www.atletismomadrid.org" ⟨2026, 1, 10⟩
        calRows 1 2026 = Except.error rawCompetitionTypeError ∧
    parse_real_competition_row "https://www.atletismomadrid.org"
        ⟨2026, 1, 10⟩ 1 2026 calPlainRow =
      Except.error rawCompetitionTypeError ∧
    has_highlight_background calPlainRow.style = false ∧
    has_highlight_background calEbffaaRow.style = true ∧
    has_highlight_background calYellowRow.style = true := by
  refine ⟨rfl, rfl, by decide, by decide, by decide⟩

/-- C4 — counterexample.  A parsed table row whose discipline cell holds
only a time token yields an `Event` whose discipline is the empty string:
the discard check runs before the time tokens are stripped from the
discipline text. -/
theorem C4_counterexample :
    extract_events_from_tables [timeOnlyTable] =
      [{ discipline := "", event_type := EventType.carrera,
         sex := Sex.masculino, category := "",
         scheduled_time := some ⟨10, 30⟩ }] := by
  decide

/-- C8 — counterexample.  A document that opens (one page) but whose page
text extraction raises is converted by the catch-all into the typed parse
error, although the document could be opened. -/
theorem C8_counterexample :
    pdf_parse (Except.ok [⟨Except.error "bad encoding", Except.ok []⟩])
        ⟨2026, 1, 10⟩ "hash" =
      Except.error "Error parseando PDF: bad encoding" := by
  rfl

/-- C2 — counterexample.  The claim quantifies over every argument tuple
including absent document URLs, but there the lookup is skipped and the
create branch violates the `NOT NULL` constraint: the call raises
`IntegrityError` instead of returning `(existing, false)`.  With an
empty-string URL (also falsy) the lookup is likewise skipped, yet the
empty string is storable, so two identical calls create two Competitions,
the second returning `changed = true` with a fresh id. -/
theorem C2_counterexample :
    (upsert_with_hash ⟨[], 0⟩
      { pdf_url := none, pdf_hash := some "h1", name := "A",
        competition_date := ⟨2026, 1, 3⟩, location := "Gallur" } =
      Except.error pdfUrlIntegrityError) ∧
    (let a : UpsertArgs :=
      { pdf_url := some "", pdf_hash := some "h1", name := "A",
        competition_date := ⟨2026, 1, 3⟩, location := "Gallur" }
     ∃ s1, upsert_with_hash ⟨[], 0⟩ a = Except.ok s1 ∧
       ∃ s2, upsert_with_hash s1.1 a = Except.ok s2 ∧
         s2.2.2 = true ∧ s2.2.1 ≠ s1.2.1 ∧ s2.1.comps.length = 2) := by
  refine ⟨rfl, ⟨_, rfl, _, rfl, rfl, by decide, rfl⟩⟩

/-- C9 — counterexample.  The additional-date year is the current system
year, not the supplied year hint: run with today in 2025, the claimed
`{2026-01-18}` comes out as `18/01/2025`. -/
theorem C9_counterexample :
    extract_additional_dates "17y18.01 (S-D)" ⟨2025, 3, 1⟩ = ["18/01/2025"] ∧
    ["18/01/2025"] ≠ ["18/01/2026"] := by
  refine ⟨by decide, by decide⟩

/-- C9 (amended): the label-pattern extraction of
`"Fecha: 11 de enero de 2026"` yields `date(2026,1,11)` for every run;
for `"17y18.01 (S-D)"` with year hint 2026 the canonical result is the
display string `"17-18 enero 2026"` (day 17 first), and the
additional-dates list is `["18/01/Y"]` where `Y` is the current system
year — the year hint is not used for the additional dates. -/
theorem C9_date_extraction :
    (∀ today : PyDate,
      extract_date "Fecha: 11 de enero de 2026" today = some ⟨2026, 1, 11⟩) ∧
    normalize_date "17y18.01 (S-D)" 2026 = "17-18 enero 2026" ∧
    (∀ today : PyDate,
      extract_additional_dates "17y18.01 (S-D)" today =
        ["18/01/" ++ toString today.year]) := by
  refine ⟨fun today => rfl, by decide, fun today => rfl⟩


/-! ### Job-loop support lemmas -/

/-- The inner PDF try never produces a `Competition`: either the download
raised, or the kwarg evaluation `raw_comp.enrollment_url` did. -/
theorem innerPdfTry_none (e : RawCompetition) (o : PdfOutcome) :
    innerPdfTry e o = none := by
  cases o <;> rfl

/-- The fallback block always raises. -/
theorem fallbackCompetition_errors (year month : Nat) (e : RawCompetition) :
    ∃ err, fallbackCompetition year month e = Except.error err := by
  unfold fallbackCompetition
  cases fallbackCompDate year month e.date_str
  · exact ⟨_, rfl⟩
  · exact ⟨_, rfl⟩

/-- The `competition`-producing prefix of the per-entry body always
raises. -/
theorem entryBody_errors (year month : Nat) (e : RawCompetition)
    (o : PdfOutcome) : ∃ err, entryBody year month e o = Except.error err := by
  obtain ⟨err, herr⟩ := fallbackCompetition_errors year month e
  refine ⟨err, ?_⟩
  simp only [entryBody]
  rw [innerPdfTry_none, ite_self]
  exact herr

/-- Every entry is dropped: the store is untouched and one error is
logged. -/
theorem processEntry_drops (year month : Nat) (db : Db) (e : RawCompetition)
    (o : PdfOutcome) : processEntry year month db e o = (db, 1) := by
  obtain ⟨err, herr⟩ := entryBody_errors year month e o
  unfold processEntry
  rw [herr]

/-- The whole per-month loop drops every entry: the store comes out as it
went in, with one logged error per entry. -/
theorem processEntries_drops_all (year month : Nat) (db : Db)
    (entries : List (RawCompetition × PdfOutcome)) :
    processEntries year month db entries = (db, entries.length) := by
  have gen : ∀ (l : List (RawCompetition × PdfOutcome)) (d : Db) (k : Nat),
      l.foldl (fun (st : Db × Nat) (_ : RawCompetition × PdfOutcome) =>
        (st.1, st.2 + 1)) (d, k) = (d, k + l.length) := by
    intro l
    induction l with
    | nil => intro d k; simp
    | cons p rest ih =>
      intro d k
      rw [List.foldl_cons, ih]
      show (d, k + 1 + rest.length) = (d, k + (p :: rest).length)
      rw [List.length_cons]
      have h : k + 1 + rest.length = k + (rest.length + 1) := by omega
      rw [h]
  unfold processEntries
  simp only [processEntry_drops]
  rw [gen entries db 0, Nat.zero_add]

/-- C5 — in the committed tree no entry is ever persisted: the
`parser.parse(..., enrollment_url=raw_comp.enrollment_url, ...)` call
raises while evaluating its kwargs, and the fallback
`Competition(..., enrollment_url=raw_comp.enrollment_url, ...)` at
jobs.py lines 112-124 raises the same `AttributeError`, which the
per-entry handler absorbs by logging and dropping the entry — so the
minimal-Competition fallback the claim (and spec 4.7) describes never
reaches the store.  Every entry is dropped this way (one error each, the
loop itself never aborts), the store comes out exactly as it went in,
and the deeper `day, month, year = parts` shadowing bug at jobs.py line
147 sits in unreachable code. -/
theorem C5_entry_dropped :
    (∀ year month db entries,
      processEntries year month db entries = (db, entries.length)) ∧
    (∀ year month entry, ∃ err,
      fallbackCompetition year month entry = Except.error err) ∧
    processEntries 2026 1 ⟨[], 0⟩ [(entryFailing, PdfOutcome.fetchFailed)] =
      (⟨[], 0⟩, 1) := by
  refine ⟨fun year month db entries => processEntries_drops_all year month db entries,
    fun year month entry => fallbackCompetition_errors year month entry,
    by decide⟩

/-! ### Upsert support lemmas -/

/-- After the in-place update of the matched row, the lookup finds the
updated row (any duplicate of its id earlier in the list is rewritten to
the same updated row, so no well-formedness hypothesis is needed). -/
theorem find?_map_update {p : DbCompetition → Bool} {l : List DbCompetition}
    {c c' : DbCompetition} (hfind : l.find? p = some c) (hc' : p c' = true) :
    (l.map (fun x => if x.id = c.id then c' else x)).find? p = some c' := by
  induction l with
  | nil => simp at hfind
  | cons x xs ih =>
    by_cases hpx : p x
    · have hx : x = c := by
        have h : some x = some c := by simpa [List.find?, hpx] using hfind
        exact Option.some.inj h
      subst hx
      simp [List.find?, hc']
    · have hpx' : p x = false := by simpa using hpx
      have hfind' : xs.find? p = some c := by
        simpa [List.find?, hpx'] using hfind
      by_cases hid : x.id = c.id
      · simp [List.find?, hid, hc']
      · have := ih hfind'
        simpa [List.find?, hid, hpx'] using this

theorem find?_append_right {p : DbCompetition → Bool} {l : List DbCompetition}
    {c : DbCompetition} (hl : l.find? p = none) (hc : p c = true) :
    (l ++ [c]).find? p = some c := by
  rw [List.find?_append, hl]
  simp [List.find?, hc]

/-- Branch equation: no-op. -/
theorem upsert_eq_noop {db : Db} {a : UpsertArgs} {u : String}
    {c : DbCompetition} (hu : a.pdf_url = some u) (hne : u ≠ "")
    (hfind : get_by_pdf_url_and_name db u a.name = some c)
    (hhash : c.pdf_hash = a.pdf_hash) (henr : c.enrollment_url = a.enrollment_url) :
    upsert_with_hash db a = Except.ok (db, c.id, false) := by
  unfold upsert_with_hash
  rw [hu]
  simp only [hne, ne_eq, not_false_iff, if_pos, hfind, hhash, henr]
  simp

/-- Branch equation: in-place update. -/
theorem upsert_eq_update {db : Db} {a : UpsertArgs} {u : String}
    {c : DbCompetition} (hu : a.pdf_url = some u) (hne : u ≠ "")
    (hfind : get_by_pdf_url_and_name db u a.name = some c)
    (hdiff : ¬ (c.pdf_hash = a.pdf_hash ∧ c.enrollment_url = a.enrollment_url)) :
    upsert_with_hash db a =
      Except.ok (⟨db.comps.map (fun x => if x.id = c.id then updatedComp c a else x),
        db.nextId⟩, c.id, true) := by
  unfold upsert_with_hash
  rw [hu]
  have hcond : (decide (c.pdf_hash = a.pdf_hash) &&
      decide (c.enrollment_url = a.enrollment_url)) = false := by
    rcases Decidable.not_and_iff_or_not.mp hdiff with h | h <;> simp [h]
  simp only [hne, ne_eq, not_false_iff, if_pos, hfind, hcond]
  simp

/-- Branch equation: create, document URL present and non-empty. -/
theorem upsert_eq_create {db : Db} {a : UpsertArgs} {u : String}
    (hu : a.pdf_url = some u) (hne : u ≠ "")
    (hfind : get_by_pdf_url_and_name db u a.name = none) :
    upsert_with_hash db a =
      Except.ok (⟨db.comps ++ [newComp db a u], db.nextId + 1⟩, db.nextId, true) := by
  unfold upsert_with_hash
  rw [hu]
  simp only [hne, ne_eq, not_false_iff, if_pos, hfind]

/-- Branch equation: create with the (storable) empty-string URL — the
lookup is skipped but the row is inserted. -/
theorem upsert_eq_create_emptyurl {db : Db} {a : UpsertArgs}
    (hu : a.pdf_url = some "") :
    upsert_with_hash db a =
      Except.ok (⟨db.comps ++ [newComp db a ""], db.nextId + 1⟩,
        db.nextId, true) := by
  unfold upsert_with_hash
  rw [hu]
  simp

/-- Branch equation: an absent document URL skips the lookup and the
create flush violates the `NOT NULL` constraint. -/
theorem upsert_eq_error_nourl {db : Db} {a : UpsertArgs}
    (hu : a.pdf_url = none) :
    upsert_with_hash db a = Except.error pdfUrlIntegrityError := by
  unfold upsert_with_hash
  rw [hu]

/-- A row found by `get_by_pdf_url_and_name` matches the key. -/
theorem find_matches {db : Db} {u name : String} {c : DbCompetition}
    (hfind : get_by_pdf_url_and_name db u name = some c) :
    c ∈ db.comps ∧ c.pdf_url = u ∧ c.name = name := by
  have hmem := List.mem_of_find?_eq_some hfind
  have hp := List.find?_some hfind
  simp only [Bool.and_eq_true, decide_eq_true_eq] at hp
  exact ⟨hmem, hp.1, hp.2⟩

/-- Every upsert takes one of four shapes: the `NOT NULL` failure on an
absent URL, a create, a no-op on a matched row, or an in-place update of a
matched row. -/
theorem upsert_shape (db : Db) (a : UpsertArgs) :
    (a.pdf_url = none ∧
      upsert_with_hash db a = Except.error pdfUrlIntegrityError) ∨
    (∃ u, a.pdf_url = some u ∧
      upsert_with_hash db a =
        Except.ok (⟨db.comps ++ [newComp db a u], db.nextId + 1⟩, db.nextId, true)) ∨
    (∃ c, c ∈ db.comps ∧ c.name = a.name ∧
      (upsert_with_hash db a = Except.ok (db, c.id, false) ∨
       upsert_with_hash db a =
         Except.ok (⟨db.comps.map (fun x => if x.id = c.id then updatedComp c a else x),
           db.nextId⟩, c.id, true))) := by
  match hurl : a.pdf_url with
  | none => exact Or.inl ⟨rfl, upsert_eq_error_nourl hurl⟩
  | some u =>
    by_cases hne : u = ""
    · subst hne
      refine Or.inr (Or.inl ⟨"", rfl, ?_⟩)
      unfold upsert_with_hash
      rw [hurl]
      simp
    · match hf : get_by_pdf_url_and_name db u a.name with
      | none => exact Or.inr (Or.inl ⟨u, rfl, upsert_eq_create hurl hne hf⟩)
      | some c =>
        obtain ⟨hmem, _, hname⟩ := find_matches hf
        by_cases hsame : c.pdf_hash = a.pdf_hash ∧ c.enrollment_url = a.enrollment_url
        · exact Or.inr (Or.inr ⟨c, hmem, hname,
            Or.inl (upsert_eq_noop hurl hne hf hsame.1 hsame.2)⟩)
        · exact Or.inr (Or.inr ⟨c, hmem, hname,
            Or.inr (upsert_eq_update hurl hne hf hsame)⟩)

/-- With a present document URL the upsert never raises. -/
theorem upsert_ok_of_some (db : Db) (a : UpsertArgs) (u : String)
    (hu : a.pdf_url = some u) :
    ∃ r, upsert_with_hash db a = Except.ok r := by
  rcases upsert_shape db a with ⟨hnone, -⟩ | ⟨u', -, hsh⟩ | ⟨c, -, -, hsh | hsh⟩
  · rw [hu] at hnone; exact Option.noConfusion hnone
  · exact ⟨_, hsh⟩
  · exact ⟨_, hsh⟩
  · exact ⟨_, hsh⟩

/-- The update branch leaves the id column unchanged. -/
theorem map_update_ids (l : List DbCompetition) (c : DbCompetition) (a : UpsertArgs) :
    (l.map (fun x => if x.id = c.id then updatedComp c a else x)).map
        DbCompetition.id = l.map DbCompetition.id := by
  rw [List.map_map]
  apply List.map_congr_left
  intro x _
  by_cases hx : x.id = c.id
  · simp [hx, updatedComp]
  · simp [hx]

/-- A successful upsert preserves store well-formedness. -/
theorem upsert_wf {db : Db} {a : UpsertArgs} {r : Db × Nat × Bool}
    (h : upsert_with_hash db a = Except.ok r) (hwf : dbWf db) : dbWf r.1 := by
  rcases upsert_shape db a with ⟨-, herr⟩ | ⟨u, -, hsh⟩ | ⟨c, hmem, -, hsh | hsh⟩
  · rw [herr] at h; exact Except.noConfusion h
  · rw [hsh] at h
    injection h with h'
    subst h'
    constructor
    · intro x hx
      rcases List.mem_append.mp hx with hx | hx
      · exact Nat.lt_succ_of_lt (hwf.1 x hx)
      · simp only [List.mem_singleton] at hx
        subst hx
        exact Nat.lt_succ_self _
    · rw [List.map_append]
      refine List.Nodup.append hwf.2 (List.nodup_singleton _) ?_
      intro i hi hj
      simp only [List.map_cons, List.map_nil, List.mem_singleton, newComp] at hj
      rcases List.mem_map.mp hi with ⟨x, hx, hix⟩
      have := hwf.1 x hx
      omega
  · rw [hsh] at h
    injection h with h'
    subst h'
    exact hwf
  · rw [hsh] at h
    injection h with h'
    subst h'
    constructor
    · intro x hx
      rcases List.mem_map.mp hx with ⟨y, hy, hyx⟩
      have hid : x.id = y.id := by
        subst hyx
        by_cases hq : y.id = c.id
        · simp [hq, updatedComp]
        · simp [hq]
      rw [hid]
      exact hwf.1 y hy
    · rw [map_update_ids]
      exact hwf.2

/-- The affected competition is present after a successful upsert, with
the argument tuple name and the returned id. -/
theorem upsert_present {db : Db} {a : UpsertArgs} {r : Db × Nat × Bool}
    (h : upsert_with_hash db a = Except.ok r) :
    ∃ c ∈ r.1.comps, c.id = r.2.1 ∧ c.name = a.name := by
  rcases upsert_shape db a with ⟨-, herr⟩ | ⟨u, -, hsh⟩ | ⟨c, hmem, hname, hsh | hsh⟩
  · rw [herr] at h; exact Except.noConfusion h
  · rw [hsh] at h
    injection h with h'
    subst h'
    exact ⟨newComp db a u, List.mem_append_right _ (List.mem_singleton_self _),
      rfl, rfl⟩
  · rw [hsh] at h
    injection h with h'
    subst h'
    exact ⟨c, hmem, rfl, hname⟩
  · rw [hsh] at h
    injection h with h'
    subst h'
    refine ⟨updatedComp c a, ?_, by simp [updatedComp], rfl⟩
    have := List.mem_map_of_mem
      (fun x => if x.id = c.id then updatedComp c a else x) hmem
    simpa using this

/-- The returned id is below the new fresh-id counter. -/
theorem upsert_id_lt {db : Db} {a : UpsertArgs} {r : Db × Nat × Bool}
    (h : upsert_with_hash db a = Except.ok r) (hwf : dbWf db) :
    r.2.1 < r.1.nextId := by
  rcases upsert_shape db a with ⟨-, herr⟩ | ⟨u, -, hsh⟩ | ⟨c, hmem, -, hsh | hsh⟩
  · rw [herr] at h; exact Except.noConfusion h
  · rw [hsh] at h; injection h with h'; subst h'; exact Nat.lt_succ_self _
  · rw [hsh] at h; injection h with h'; subst h'; exact hwf.1 c hmem
  · rw [hsh] at h; injection h with h'; subst h'; exact hwf.1 c hmem

/-- A stored competition whose name differs from the upsert tuple name
survives a successful upsert untouched. -/
theorem upsert_keeps_other {db : Db} {a : UpsertArgs} {r : Db × Nat × Bool}
    (h : upsert_with_hash db a = Except.ok r) (hwf : dbWf db)
    {c1 : DbCompetition} (hmem1 : c1 ∈ db.comps) (hname1 : c1.name ≠ a.name) :
    c1 ∈ r.1.comps := by
  rcases upsert_shape db a with ⟨-, herr⟩ | ⟨u, -, hsh⟩ | ⟨c, hmem, hname, hsh | hsh⟩
  · rw [herr] at h; exact Except.noConfusion h
  · rw [hsh] at h; injection h with h'; subst h'
    exact List.mem_append_left _ hmem1
  · rw [hsh] at h; injection h with h'; subst h'
    exact hmem1
  · rw [hsh] at h; injection h with h'; subst h'
    have hne : c1.id ≠ c.id := by
      intro hq
      have := List.inj_on_of_nodup_map hwf.2 hmem1 hmem hq
      subst this
      exact hname1 hname
    have := List.mem_map_of_mem
      (fun x => if x.id = c.id then updatedComp c a else x) hmem1
    simpa [hne] using this

/-- C2 (amended): upsert is idempotent whenever the document URL is
present and non-empty — the first call succeeds and the second identical
call is a no-op returning `(existing, false)` with the id and the whole
store unchanged.  (When the document URL is the empty string the lookup is
skipped and each call creates a fresh Competition; when it is absent the
create flush raises `IntegrityError` — see the counterexample.) -/
theorem C2_upsert_idempotent (db : Db) (a : UpsertArgs) (u : String)
    (hu : a.pdf_url = some u) (hne : u ≠ "") :
    ∃ r1, upsert_with_hash db a = Except.ok r1 ∧
      upsert_with_hash r1.1 a = Except.ok (r1.1, r1.2.1, false) := by
  match hf : get_by_pdf_url_and_name db u a.name with
  | none =>
    refine ⟨(⟨db.comps ++ [newComp db a u], db.nextId + 1⟩, db.nextId, true),
      upsert_eq_create hu hne hf, ?_⟩
    have hfind2 : get_by_pdf_url_and_name
        ⟨db.comps ++ [newComp db a u], db.nextId + 1⟩ u a.name =
        some (newComp db a u) := by
      unfold get_by_pdf_url_and_name at hf ⊢
      refine find?_append_right hf ?_
      simp [newComp]
    show upsert_with_hash ⟨db.comps ++ [newComp db a u], db.nextId + 1⟩ a =
      Except.ok (⟨db.comps ++ [newComp db a u], db.nextId + 1⟩, db.nextId, false)
    exact upsert_eq_noop hu hne hfind2 rfl rfl
  | some c =>
    by_cases hsame : c.pdf_hash = a.pdf_hash ∧ c.enrollment_url = a.enrollment_url
    · exact ⟨(db, c.id, false), upsert_eq_noop hu hne hf hsame.1 hsame.2,
        upsert_eq_noop hu hne hf hsame.1 hsame.2⟩
    · refine ⟨(⟨db.comps.map (fun x => if x.id = c.id then updatedComp c a else x),
          db.nextId⟩, c.id, true), upsert_eq_update hu hne hf hsame, ?_⟩
      have hc := find_matches hf
      have hfind2 : get_by_pdf_url_and_name
          ⟨db.comps.map (fun x => if x.id = c.id then updatedComp c a else x),
            db.nextId⟩ u a.name = some (updatedComp c a) := by
        unfold get_by_pdf_url_and_name at hf ⊢
        refine find?_map_update hf ?_
        simp [updatedComp, hc.2.1]
      show upsert_with_hash
          ⟨db.comps.map (fun x => if x.id = c.id then updatedComp c a else x),
            db.nextId⟩ a =
        Except.ok (⟨db.comps.map (fun x => if x.id = c.id then updatedComp c a else x),
          db.nextId⟩, (updatedComp c a).id, false)
      exact upsert_eq_noop hu hne hfind2 rfl rfl

/-- C2 witness: the idempotence theorem applied to a concrete call. -/
theorem C2_upsert_idempotent_witness :
    (let a : UpsertArgs :=
      { pdf_url := some "http://fam/a.pdf", pdf_hash := some "h1", name := "A",
        competition_date := ⟨2026, 1, 3⟩, location := "Gallur",
        events := some [⟨"60", "carrera", "M", some ⟨10, 0⟩, ""⟩] }
     ∃ r1, upsert_with_hash ⟨[], 0⟩ a = Except.ok r1 ∧
       upsert_with_hash r1.1 a = Except.ok (r1.1, r1.2.1, false)) :=
  C2_upsert_idempotent ⟨[], 0⟩ _ "http://fam/a.pdf" rfl (by decide)

/-- C6: an update-triggering upsert (stored hash or enrollment URL differs)
succeeds, returns `(existing, true)` and leaves the competition event set
exactly equal to the incoming event list. -/
theorem C6_event_list_replacement (db : Db) (a : UpsertArgs) (u : String)
    (c : DbCompetition) (es : List EventData)
    (hu : a.pdf_url = some u) (hne : u ≠ "")
    (hfound : get_by_pdf_url_and_name db u a.name = some c)
    (hdiff : ¬ (c.pdf_hash = a.pdf_hash ∧ c.enrollment_url = a.enrollment_url))
    (hev : a.events = some es) :
    ∃ r, upsert_with_hash db a = Except.ok r ∧
      r.2.2 = true ∧ r.2.1 = c.id ∧
      ∃ c', get_by_pdf_url_and_name r.1 u a.name = some c' ∧
        c'.id = c.id ∧ c'.events = es := by
  have hc := find_matches hfound
  refine ⟨_, upsert_eq_update hu hne hfound hdiff, rfl, rfl,
    updatedComp c a, ?_, by simp [updatedComp], ?_⟩
  · unfold get_by_pdf_url_and_name at hfound ⊢
    refine find?_map_update hfound ?_
    simp [updatedComp, hc.2.1]
  · simp [updatedComp, hev]

/-- C6 witness: the replacement theorem applied to a concrete updated
store. -/
theorem C6_event_list_replacement_witness :
    (let c0 : DbCompetition :=
      { id := 0, pdf_url := "http://fam/a.pdf", pdf_hash := some "h1",
        name := "A", competition_date := ⟨2026, 1, 3⟩, location := "Gallur",
        has_modifications := false, competition_type := none,
        enrollment_url := none,
        events := [⟨"60", "carrera", "M", some ⟨10, 0⟩, ""⟩],
        fechas_adicionales := [] }
     let a : UpsertArgs :=
      { pdf_url := some "http://fam/a.pdf", pdf_hash := some "h2", name := "A",
        competition_date := ⟨2026, 1, 3⟩, location := "Gallur",
        events := some [⟨"Altura", "concurso", "F", none, ""⟩] }
     ∃ r, upsert_with_hash ⟨[c0], 1⟩ a = Except.ok r ∧
       r.2.2 = true ∧ r.2.1 = c0.id ∧
       ∃ c', get_by_pdf_url_and_name r.1 "http://fam/a.pdf" "A" = some c' ∧
         c'.id = c0.id ∧ c'.events = [⟨"Altura", "concurso", "F", none, ""⟩]) := by
  refine C6_event_list_replacement _ _ "http://fam/a.pdf" _ _ rfl (by decide)
    (by decide) (by decide) rfl

/-- C7: with the same non-empty document URL but different names, both
upserts succeed and touch two distinct Competitions — the second call
neither matches nor overwrites the first; afterwards both names are
present under different ids. -/
theorem C7_identity_key (db : Db) (a1 a2 : UpsertArgs) (u : String)
    (hwf : dbWf db) (h1 : a1.pdf_url = some u) (h2 : a2.pdf_url = some u)
    (_hne : u ≠ "") (hnames : a1.name ≠ a2.name) :
    ∃ r1 r2, upsert_with_hash db a1 = Except.ok r1 ∧
      upsert_with_hash r1.1 a2 = Except.ok r2 ∧
      r1.2.1 ≠ r2.2.1 ∧
      (∃ c1 ∈ r2.1.comps, c1.id = r1.2.1 ∧ c1.name = a1.name) ∧
      (∃ c2 ∈ r2.1.comps, c2.id = r2.2.1 ∧ c2.name = a2.name) := by
  obtain ⟨r1, hr1⟩ := upsert_ok_of_some db a1 u h1
  obtain ⟨r2, hr2⟩ := upsert_ok_of_some r1.1 a2 u h2
  obtain ⟨c1, hc1mem, hc1id, hc1name⟩ := upsert_present hr1
  have hwf1 : dbWf r1.1 := upsert_wf hr1 hwf
  have hc1name2 : c1.name ≠ a2.name := by rw [hc1name]; exact hnames
  refine ⟨r1, r2, hr1, hr2, ?_, ?_, ?_⟩
  · rcases upsert_shape r1.1 a2 with ⟨hnone, -⟩ | ⟨u', -, hsh⟩ |
      ⟨c2, hc2mem, hc2name, hsh | hsh⟩
    · rw [h2] at hnone; exact Option.noConfusion hnone
    · rw [hsh] at hr2
      injection hr2 with hr2'
      subst hr2'
      have hlt : c1.id < r1.1.nextId := hwf1.1 c1 hc1mem
      rw [← hc1id]
      show c1.id ≠ r1.1.nextId
      omega
    · rw [hsh] at hr2
      injection hr2 with hr2'
      subst hr2'
      intro hq
      rw [← hc1id] at hq
      have := List.inj_on_of_nodup_map hwf1.2 hc1mem hc2mem hq
      subst this
      exact hc1name2 hc2name
    · rw [hsh] at hr2
      injection hr2 with hr2'
      subst hr2'
      intro hq
      rw [← hc1id] at hq
      have := List.inj_on_of_nodup_map hwf1.2 hc1mem hc2mem hq
      subst this
      exact hc1name2 hc2name
  · exact ⟨c1, upsert_keeps_other hr2 hwf1 hc1mem hc1name2, hc1id, hc1name⟩
  · exact upsert_present hr2

/-- C7 witness: two concrete calls with a shared document URL and
different names. -/
theorem C7_identity_key_witness :
    (let a1 : UpsertArgs :=
      { pdf_url := some "http://fam/shared.pdf", pdf_hash := some "h",
        name := "Meet A", competition_date := ⟨2026, 1, 3⟩, location := "Gallur" }
     let a2 : UpsertArgs :=
      { pdf_url := some "http://fam/shared.pdf", pdf_hash := some "h",
        name := "Meet B", competition_date := ⟨2026, 1, 3⟩, location := "Gallur" }
     ∃ r1 r2, upsert_with_hash ⟨[], 0⟩ a1 = Except.ok r1 ∧
       upsert_with_hash r1.1 a2 = Except.ok r2 ∧
       r1.2.1 ≠ r2.2.1 ∧
       (∃ c1 ∈ r2.1.comps, c1.id = r1.2.1 ∧ c1.name = "Meet A") ∧
       (∃ c2 ∈ r2.1.comps, c2.id = r2.2.1 ∧ c2.name = "Meet B")) := by
  refine C7_identity_key ⟨[], 0⟩ _ _ "http://fam/shared.pdf"
    ⟨by simp, by simp⟩ rfl rfl (by decide) (by decide)

/-! ### Row-parsing support lemmas -/

/-- What a successful `parse_event_row` tells us about its pieces. -/
theorem parse_event_row_fields {row0 : List String} {cols : ColMap} {e : Event}
    (h : parse_event_row row0 cols = some e) :
    rowDiscipline (row0.map pyStrip) cols ≠ "" ∧
    e = { discipline := normalize_discipline
            (cleanDiscipline (rowDiscipline (row0.map pyStrip) cols)),
          event_type := detect_event_type (normalize_discipline
            (cleanDiscipline (rowDiscipline (row0.map pyStrip) cols))),
          sex := extract_sex_from_row (row0.map pyStrip) cols.sex_col,
          category := rowCategory (row0.map pyStrip) cols,
          scheduled_time := rowTime (row0.map pyStrip) cols } := by
  rw [parse_event_row] at h
  by_cases h1 : (row0.map pyStrip).all (fun c => c = "") = true
  · rw [if_pos h1] at h
    exact Option.noConfusion h
  · rw [if_neg h1] at h
    by_cases h2 : rowDiscipline (row0.map pyStrip) cols = ""
    · rw [if_pos h2] at h
      exact Option.noConfusion h
    · rw [if_neg h2] at h
      exact ⟨h2, (Option.some.inj h).symm⟩

/-- C4 (amended): every extracted event's sex is one of the two defined
values, and a parsed table row yields an event only when the discipline
text selected from the row is non-empty — but the *stored* discipline is
that text after time-token/`serie` stripping and normalization, which can
be empty (see counterexample). -/
theorem C4_discipline_sex_invariant :
    (∀ tables : List (List (List String)),
      ∀ e ∈ extract_events_from_tables tables,
        e.sex = Sex.masculino ∨ e.sex = Sex.femenino) ∧
    (∀ (row0 : List String) (cols : ColMap) (e : Event),
      parse_event_row row0 cols = some e →
        rowDiscipline (row0.map pyStrip) cols ≠ "" ∧
        e.discipline = normalize_discipline
          (cleanDiscipline (rowDiscipline (row0.map pyStrip) cols))) := by
  constructor
  · intro tables e _
    cases h : e.sex
    · exact Or.inl rfl
    · exact Or.inr rfl
  · intro row0 cols e h
    obtain ⟨hne, hrec⟩ := parse_event_row_fields h
    exact ⟨hne, by rw [hrec]⟩

/-- C4 witness: the invariant theorem applied at the reference table's
first data row. -/
theorem C4_discipline_sex_invariant_witness :
    (specEvent60 ∈ extract_events_from_tables [specTable] ∧
      (specEvent60.sex = Sex.masculino ∨ specEvent60.sex = Sex.femenino)) ∧
    (parse_event_row ["60m", "M", "10:00", "Senior"]
        { discipline_col := some 0, sex_col := some 3, time_col := some 2 } =
        some specEvent60 ∧
      rowDiscipline (["60m", "M", "10:00", "Senior"].map pyStrip)
        { discipline_col := some 0, sex_col := some 3, time_col := some 2 } ≠ "") := by
  refine ⟨⟨by decide, ?_⟩, ⟨by decide, ?_⟩⟩
  · exact C4_discipline_sex_invariant.1 [specTable] specEvent60 (by decide)
  · exact (C4_discipline_sex_invariant.2 ["60m", "M", "10:00", "Senior"]
      { discipline_col := some 0, sex_col := some 3, time_col := some 2 }
      specEvent60 (by decide)).1

/-! ### PDF parse error-surface lemmas -/

/-- The page loop succeeds exactly when every page's text and table
extraction succeed. -/
theorem collectPages_ok_iff (pages : List PdfPage) :
    (∃ v, collectPages pages = Except.ok v) ↔
      ∀ p ∈ pages, (∃ t, p.text = Except.ok t) ∧
        (∃ ts, p.tables = Except.ok ts) := by
  induction pages with
  | nil => simp [collectPages]
  | cons p rest ih =>
    match ht : p.text with
    | Except.error e =>
      have hcp : collectPages (p :: rest) = Except.error e := by
        unfold collectPages
        rw [ht]
        rfl
      constructor
      · rintro ⟨v, hv⟩
        rw [hcp] at hv
        cases hv
      · intro h
        obtain ⟨t, ht'⟩ := (h p (List.mem_cons_self _ _)).1
        rw [ht] at ht'
        cases ht'
    | Except.ok t =>
      match htab : p.tables with
      | Except.error e =>
        have hcp : collectPages (p :: rest) = Except.error e := by
          unfold collectPages
          rw [ht, htab]
          rfl
        constructor
        · rintro ⟨v, hv⟩
          rw [hcp] at hv
          cases hv
        · intro h
          obtain ⟨ts, hts⟩ := (h p (List.mem_cons_self _ _)).2
          rw [htab] at hts
          cases hts
      | Except.ok ts =>
        match hrest : collectPages rest with
        | Except.error e =>
          have hcp : collectPages (p :: rest) = Except.error e := by
            unfold collectPages
            rw [ht, htab, hrest]
            rfl
          constructor
          · rintro ⟨v, hv⟩
            rw [hcp] at hv
            cases hv
          · intro h
            obtain ⟨v, hv⟩ := ih.mpr (fun q hq => h q (List.mem_cons_of_mem _ hq))
            rw [hrest] at hv
            cases hv
        | Except.ok v =>
          obtain ⟨rt, rtab⟩ := v
          have hcp : collectPages (p :: rest) =
              Except.ok (t ++ "\n" ++ rt, ts ++ rtab) := by
            unfold collectPages
            rw [ht, htab, hrest]
            rfl
          constructor
          · intro _
            intro q hq
            rcases List.mem_cons.mp hq with rfl | hq
            · exact ⟨⟨t, ht⟩, ⟨ts, htab⟩⟩
            · exact ih.mp ⟨_, hrest⟩ q hq
          · intro _
            exact ⟨_, hcp⟩

/-- C8 (amended): `parse` returns a Competition exactly when the document
opens and every page's text and table extraction succeed; every other
failure inside the single try/except — including a per-page extraction
failure on an openable document — surfaces as the typed parse error, while
missing dates/venues/events only degrade to defaults. -/
theorem C8_parse_error_surface (openRes : PdfOpenResult) (today : PyDate)
    (pdfHash name pdf_url : String) (hm : Bool) (ct : Option String) :
    (∃ c, pdf_parse openRes today pdfHash name pdf_url hm ct = Except.ok c) ↔
      (∃ pages, openRes = Except.ok pages ∧
        ∀ p ∈ pages, (∃ t, p.text = Except.ok t) ∧
          (∃ ts, p.tables = Except.ok ts)) := by
  cases openRes with
  | error e =>
    constructor
    · rintro ⟨c, hc⟩
      exact Except.noConfusion hc
    · rintro ⟨pages, hp, -⟩
      exact Except.noConfusion hp
  | ok pages =>
    match hcp : collectPages pages with
    | Except.error e =>
      have hpp : pdf_parse (Except.ok pages) today pdfHash name pdf_url hm ct =
          Except.error ("Error parseando PDF: " ++ e) := by
        simp only [pdf_parse]
        rw [hcp]
      constructor
      · rintro ⟨c, hc⟩
        rw [hpp] at hc
        exact Except.noConfusion hc
      · rintro ⟨pages', hp', hall⟩
        have heq : pages = pages' := by
          injection hp'
        subst heq
        obtain ⟨v, hv⟩ := (collectPages_ok_iff pages).mpr hall
        rw [hcp] at hv
        exact Except.noConfusion hv
    | Except.ok v =>
      obtain ⟨ft, tabs⟩ := v
      have hpp : pdf_parse (Except.ok pages) today pdfHash name pdf_url hm ct =
          Except.ok
            { name := if name ≠ "" then name else extract_name ft,
              competition_date := (extract_date ft today).getD today,
              location := (extract_location ft).getD "Lugar no especificado",
              pdf_url := some pdf_url,
              pdf_hash := some pdfHash,
              has_modifications := hm,
              competition_type := ct,
              events := if extract_events_from_tables tabs = [] then
                  extract_events_from_text ft
                else extract_events_from_tables tabs } := by
        simp only [pdf_parse]
        rw [hcp]
      constructor
      · intro _
        exact ⟨pages, rfl, (collectPages_ok_iff pages).mp ⟨_, hcp⟩⟩
      · intro _
        exact ⟨_, hpp⟩

/-- C8 witness: both directions at a concrete openable document. -/
theorem C8_parse_error_surface_witness :
    (∃ c, pdf_parse
        (Except.ok [⟨Except.ok "Fecha: 11 de enero de 2026",
                     Except.ok [specTable]⟩])
        ⟨2026, 1, 10⟩ "h" "Control" "u" false none = Except.ok c) := by
  refine (C8_parse_error_surface _ _ _ _ _ _ _).mpr
    ⟨_, rfl, ?_⟩
  intro p hp
  rcases List.mem_singleton.mp hp with rfl
  exact ⟨⟨_, rfl⟩, ⟨_, rfl⟩⟩

/-! ### Time-inheritance lemmas (C10) -/

/-- Invariant preservation along a left fold. -/
theorem foldl_preserve {α β : Type} (P : β → Prop) (step : β → α → β)
    (l : List α) (hstep : ∀ st a, a ∈ l → P st → P (step st a))
    (st : β) (hst : P st) : P (l.foldl step st) := by
  induction l generalizing st with
  | nil => exact hst
  | cons a rest ih =>
    exact ih (fun st' b hb h => hstep st' b (List.mem_cons_of_mem _ hb) h) _
      (hstep st a (List.mem_cons_self _ _) hst)

theorem firstSome_mem {α β : Type} {f : α → Option β} {l : List α} {b : β}
    (h : firstSome f l = some b) : ∃ a ∈ l, f a = some b := by
  induction l with
  | nil => exact Option.noConfusion h
  | cons a rest ih =>
    cases hfa : f a with
    | some c =>
      rw [firstSome, hfa] at h
      obtain rfl := Option.some.inj h
      exact ⟨a, List.mem_cons_self _ _, hfa⟩
    | none =>
      rw [firstSome, hfa] at h
      obtain ⟨x, hx, hfx⟩ := ih h
      exact ⟨x, List.mem_cons_of_mem _ hx, hfx⟩

/-- A time delivered by `rowTime` is the parse of one of the row's cells. -/
theorem rowTime_src {row : List String} {cols : ColMap} {t : PyTime}
    (h : rowTime row cols = some t) : ∃ c ∈ row, parse_time c = some t := by
  cases hc : cols.time_col with
  | some i =>
    by_cases hi : i < row.length
    · simp only [rowTime, hc, hi, dif_pos] at h
      cases hp : parse_time (row.get ⟨i, hi⟩) with
      | some t' =>
        rw [hp] at h
        obtain rfl : t' = t := Option.some.inj h
        exact ⟨row.get ⟨i, hi⟩, List.get_mem _ _ _, hp⟩
      | none =>
        rw [hp] at h
        exact firstSome_mem h
    · simp only [rowTime, hc, hi, dif_neg, not_false_iff] at h
      exact firstSome_mem h
  | none =>
    simp only [rowTime, hc] at h
    exact firstSome_mem h

/-- A time on an event produced by `parse_event_row` is parsed from one of
the (original, unstripped) cells of its own row. -/
theorem parse_event_row_time_src {row0 : List String} {cols : ColMap}
    {e : Event} (h : parse_event_row row0 cols = some e) {t : PyTime}
    (ht : e.scheduled_time = some t) :
    ∃ cell ∈ row0, parse_time (pyStrip cell) = some t := by
  obtain ⟨-, hrec⟩ := parse_event_row_fields h
  rw [hrec] at ht
  have ht' : rowTime (row0.map pyStrip) cols = some t := ht
  obtain ⟨c, hc, hpc⟩ := rowTime_src ht'
  obtain ⟨cell, hcell, rfl⟩ := List.mem_map.mp hc
  exact ⟨cell, hcell, hpc⟩

/-- Preservation of the row-loop invariant by one `parseTableRowsStep`:
every produced time is parsed from the processed row, carried over, or
inherited from the threaded time; the events stay a time-less block
followed by a timed block. -/
theorem parseTableRowsStep_preserve (cols : ColMap) (lt0 : Option PyTime)
    (Q : PyTime → Prop) (row : List String)
    (hrowQ : ∀ cell ∈ row, ∀ t, parse_time (pyStrip cell) = some t → Q t)
    (events : List Event) (lt : Option PyTime)
    (h1 : ∀ e ∈ events, ∀ t, e.scheduled_time = some t → Q t ∨ lt0 = some t)
    (h2 : ∀ t, lt = some t → Q t ∨ lt0 = some t)
    (h3 : ∃ n s, events = n ++ s ∧
      (∀ e ∈ n, e.scheduled_time = none) ∧
      (∀ e ∈ s, e.scheduled_time.isSome = true) ∧
      (lt0.isSome = true → n = []) ∧
      (lt = none → s = [] ∧ lt0 = none)) :
    (∀ e ∈ (parseTableRowsStep cols (events, lt) row).1, ∀ t,
      e.scheduled_time = some t → Q t ∨ lt0 = some t) ∧
    (∀ t, (parseTableRowsStep cols (events, lt) row).2 = some t →
      Q t ∨ lt0 = some t) ∧
    (∃ n s, (parseTableRowsStep cols (events, lt) row).1 = n ++ s ∧
      (∀ e ∈ n, e.scheduled_time = none) ∧
      (∀ e ∈ s, e.scheduled_time.isSome = true) ∧
      (lt0.isSome = true → n = []) ∧
      ((parseTableRowsStep cols (events, lt) row).2 = none →
        s = [] ∧ lt0 = none)) := by
  obtain ⟨n, s, hsplit, hn, hs, hn0, hcoup⟩ := h3
  by_cases hskip : (row = [] || row.all (fun c => c = "")) = true
  · have hstep : parseTableRowsStep cols (events, lt) row = (events, lt) := by
      simp only [parseTableRowsStep, if_pos hskip]
    rw [hstep]
    exact ⟨h1, h2, n, s, hsplit, hn, hs, hn0, hcoup⟩
  · match hper : parse_event_row row cols with
    | none =>
      have hstep : parseTableRowsStep cols (events, lt) row = (events, lt) := by
        simp only [parseTableRowsStep, if_neg hskip, hper]
      rw [hstep]
      exact ⟨h1, h2, n, s, hsplit, hn, hs, hn0, hcoup⟩
    | some e =>
      by_cases hA : (decide (e.scheduled_time = none) && lt.isSome) = true
      · have hstep : parseTableRowsStep cols (events, lt) row =
            (events ++ [{ e with scheduled_time := lt }], lt) := by
          simp only [parseTableRowsStep, if_neg hskip, hper]
          rw [if_pos hA]
        rw [hstep]
        simp only [Bool.and_eq_true, decide_eq_true_eq] at hA
        obtain ⟨hTN, hLS⟩ := hA
        refine ⟨?_, h2, n, s ++ [{ e with scheduled_time := lt }], ?_, hn, ?_,
          hn0, ?_⟩
        · intro e' he' t het
          rcases List.mem_append.mp he' with he' | he'
          · exact h1 e' he' t het
          · rcases List.mem_singleton.mp he' with rfl
            exact h2 t het
        · show events ++ [{ e with scheduled_time := lt }] =
            n ++ (s ++ [{ e with scheduled_time := lt }])
          rw [hsplit, List.append_assoc]
        · intro e' he'
          rcases List.mem_append.mp he' with he' | he'
          · exact hs e' he'
          · rcases List.mem_singleton.mp he' with rfl
            simpa using hLS
        · intro habs
          have habs' : lt = none := habs
          rw [habs'] at hLS
          exact absurd hLS (by simp)
      · by_cases hB : e.scheduled_time.isSome = true
        · have hstep : parseTableRowsStep cols (events, lt) row =
              (events ++ [e], e.scheduled_time) := by
            simp only [parseTableRowsStep, if_neg hskip, hper]
            rw [if_neg hA, if_pos hB]
          rw [hstep]
          obtain ⟨t₀, ht₀⟩ := Option.isSome_iff_exists.mp hB
          have hown : ∀ t, e.scheduled_time = some t → Q t := by
            intro t het
            obtain ⟨cell, hcell, hpc⟩ := parse_event_row_time_src hper het
            exact hrowQ cell hcell t hpc
          refine ⟨?_, ?_, n, s ++ [e], ?_, hn, ?_, hn0, ?_⟩
          · intro e' he' t het
            rcases List.mem_append.mp he' with he' | he'
            · exact h1 e' he' t het
            · rcases List.mem_singleton.mp he' with rfl
              exact Or.inl (hown t het)
          · intro t het
            exact Or.inl (hown t het)
          · show events ++ [e] = n ++ (s ++ [e])
            rw [hsplit, List.append_assoc]
          · intro e' he'
            rcases List.mem_append.mp he' with he' | he'
            · exact hs e' he'
            · rcases List.mem_singleton.mp he' with rfl
              exact hB
          · intro habs
            have habs' : e.scheduled_time = none := habs
            rw [ht₀] at habs'
            exact Option.noConfusion habs'
        · have hTN : e.scheduled_time = none := by
            cases hts : e.scheduled_time with
            | none => rfl
            | some t₀ => rw [hts] at hB; exact absurd rfl hB
          have hLN : lt = none := by
            cases hlt : lt with
            | none => rfl
            | some v =>
              rw [hTN, hlt] at hA
              exact absurd (by simp) hA
          have hstep : parseTableRowsStep cols (events, lt) row =
              (events ++ [e], lt) := by
            simp only [parseTableRowsStep, if_neg hskip, hper]
            rw [if_neg hA, if_neg hB]
          rw [hstep]
          obtain ⟨hse, hlt0n⟩ := hcoup hLN
          subst hse
          refine ⟨?_, h2, n ++ [e], [], ?_, ?_, by simp, ?_, ?_⟩
          · intro e' he' t het
            rcases List.mem_append.mp he' with he' | he'
            · exact h1 e' he' t het
            · rcases List.mem_singleton.mp he' with rfl
              rw [hTN] at het
              exact Option.noConfusion het
          · show events ++ [e] = (n ++ [e]) ++ []
            rw [hsplit, List.append_nil, List.append_nil]
          · intro e' he'
            rcases List.mem_append.mp he' with he' | he'
            · exact hn e' he'
            · rcases List.mem_singleton.mp he' with rfl
              exact hTN
          · intro habs
            rw [hlt0n] at habs
            exact absurd habs (by simp)
          · intro _
            exact ⟨rfl, hlt0n⟩

/-- Behaviour of the whole data-row loop: every produced time is parsed
from one of the processed rows or inherited from the initial threaded
time; the produced events are a time-less block followed by a timed block
(the former empty when a time was already threaded in). -/
theorem parseTableRows_spec (rows : List (List String)) (cols : ColMap)
    (lt0 : Option PyTime) :
    (∀ e ∈ (parseTableRows rows cols lt0).1, ∀ t, e.scheduled_time = some t →
      (∃ row ∈ rows, ∃ cell ∈ row, parse_time (pyStrip cell) = some t) ∨
        lt0 = some t) ∧
    (∀ t, (parseTableRows rows cols lt0).2 = some t →
      (∃ row ∈ rows, ∃ cell ∈ row, parse_time (pyStrip cell) = some t) ∨
        lt0 = some t) ∧
    (∃ n s, (parseTableRows rows cols lt0).1 = n ++ s ∧
      (∀ e ∈ n, e.scheduled_time = none) ∧
      (∀ e ∈ s, e.scheduled_time.isSome = true) ∧
      (lt0.isSome = true → n = []) ∧
      ((parseTableRows rows cols lt0).2 = none → s = [] ∧ lt0 = none)) := by
  have hmain : rowsInv rows lt0
      (rows.foldl (parseTableRowsStep cols) ([], lt0)) := by
    refine foldl_preserve (rowsInv rows lt0) (parseTableRowsStep cols)
      rows ?_ ([], lt0) ?_
    · intro st row hrow hst
      obtain ⟨events, lt⟩ := st
      obtain ⟨p1, p2, p3⟩ := hst
      exact parseTableRowsStep_preserve cols lt0 _ row
        (fun cell hcell t hpc => ⟨row, hrow, cell, hcell, hpc⟩)
        events lt p1 p2 p3
    · exact ⟨by simp, fun t ht => Or.inr ht,
        [], [], by simp, by simp, by simp, by simp, fun h => ⟨rfl, h⟩⟩
  exact hmain

/-- The table-level consequence for `parse_events_table` (rows are drawn
from the table, whatever the detected columns and start index). -/
theorem parse_events_table_spec (table : List (List String))
    (lt0 : Option PyTime) :
    (∀ e ∈ parse_events_table table lt0, ∀ t, e.scheduled_time = some t →
      (∃ row ∈ table, ∃ cell ∈ row, parse_time (pyStrip cell) = some t) ∨
        lt0 = some t) ∧
    (∃ n s, parse_events_table table lt0 = n ++ s ∧
      (∀ e ∈ n, e.scheduled_time = none) ∧
      (∀ e ∈ s, e.scheduled_time.isSome = true) ∧
      (lt0.isSome = true → n = [])) := by
  obtain ⟨start, cols, heq⟩ :
      ∃ start cols, parse_events_table table lt0 =
        (parseTableRows (table.drop start) cols lt0).1 := ⟨_, _, rfl⟩
  obtain ⟨h1, -, n, s, hsplit, hn, hs, hn0, -⟩ :=
    parseTableRows_spec (table.drop start) cols lt0
  rw [heq]
  refine ⟨?_, n, s, hsplit, hn, hs, hn0⟩
  intro e he t het
  rcases h1 e he t het with ⟨row, hrow, hrest⟩ | hlt
  · exact Or.inl ⟨row, List.drop_subset _ _ hrow, hrest⟩
  · exact Or.inr hlt

/-- Preservation of the document-level invariant by one
`extractTablesStep`. -/
theorem extractTablesStep_preserve (R : PyTime → Prop)
    (table : List (List String))
    (htabR : ∀ row ∈ table, ∀ cell ∈ row, ∀ t,
      parse_time (pyStrip cell) = some t → R t)
    (events : List Event) (lt : Option PyTime)
    (g1 : ∀ e ∈ events, ∀ t, e.scheduled_time = some t → R t)
    (g2 : ∀ t, lt = some t → R t)
    (g3 : ∃ n s, events = n ++ s ∧
      (∀ e ∈ n, e.scheduled_time = none) ∧
      (∀ e ∈ s, e.scheduled_time.isSome = true) ∧
      (lt = none → s = [])) :
    (∀ e ∈ (extractTablesStep (events, lt) table).1, ∀ t,
      e.scheduled_time = some t → R t) ∧
    (∀ t, (extractTablesStep (events, lt) table).2 = some t → R t) ∧
    (∃ n s, (extractTablesStep (events, lt) table).1 = n ++ s ∧
      (∀ e ∈ n, e.scheduled_time = none) ∧
      (∀ e ∈ s, e.scheduled_time.isSome = true) ∧
      ((extractTablesStep (events, lt) table).2 = none → s = [])) := by
  obtain ⟨n, s, hsplit, hn, hs, hcoup⟩ := g3
  by_cases hempty : table = []
  · have hstep : extractTablesStep (events, lt) table = (events, lt) := by
      simp only [extractTablesStep, if_pos hempty]
    rw [hstep]
    exact ⟨g1, g2, n, s, hsplit, hn, hs, hcoup⟩
  · have hstep : extractTablesStep (events, lt) table =
        (events ++ parse_events_table table lt,
          match (parse_events_table table lt).reverse.find?
              (fun e => e.scheduled_time.isSome) with
            | some e => e.scheduled_time
            | none => lt) := by
      simp only [extractTablesStep, if_neg hempty]
    rw [hstep]
    obtain ⟨p1, nt, st', htsplit, hnt, hst', hnt0⟩ :=
      parse_events_table_spec table lt
    have hprov : ∀ e ∈ parse_events_table table lt, ∀ t,
        e.scheduled_time = some t → R t := by
      intro e he t het
      rcases p1 e he t het with ⟨row, hrow, cell, hcell, hpc⟩ | hlt
      · exact htabR row hrow cell hcell t hpc
      · exact g2 t hlt
    refine ⟨?_, ?_, ?_⟩
    · intro e he t het
      rcases List.mem_append.mp he with he | he
      · exact g1 e he t het
      · exact hprov e he t het
    · intro t ht
      cases hfind : (parse_events_table table lt).reverse.find?
          (fun e => e.scheduled_time.isSome) with
      | some e₀ =>
        rw [hfind] at ht
        exact hprov e₀ (List.mem_reverse.mp (List.mem_of_find?_eq_some hfind))
          t ht
      | none =>
        rw [hfind] at ht
        exact g2 t ht
    · have hcases : lt = none ∨ ∃ v, lt = some v := by
        cases lt
        · exact Or.inl rfl
        · exact Or.inr ⟨_, rfl⟩
      rcases hcases with hlt | ⟨v, hlt⟩
      · have hsnil : s = [] := hcoup hlt
        refine ⟨n ++ nt, st', ?_, ?_, hst', ?_⟩
        · show events ++ parse_events_table table lt = (n ++ nt) ++ st'
          rw [hsplit, hsnil, List.append_nil, htsplit, List.append_assoc]
        · intro e he
          rcases List.mem_append.mp he with he | he
          · exact hn e he
          · exact hnt e he
        · intro habs
          cases hst'e : st' with
          | nil => rfl
          | cons e₀ rest =>
            have he₀ : e₀ ∈ parse_events_table table lt := by
              rw [htsplit, hst'e]
              exact List.mem_append_right _ (List.mem_cons_self _ _)
            have hsome : e₀.scheduled_time.isSome = true := by
              apply hst'
              rw [hst'e]
              exact List.mem_cons_self _ _
            cases hfind : (parse_events_table table lt).reverse.find?
                (fun e => e.scheduled_time.isSome) with
            | some e₁ =>
              rw [hfind] at habs
              have habs' : e₁.scheduled_time = none := habs
              have hp := List.find?_some hfind
              simp [habs'] at hp
            | none =>
              have hne := List.find?_eq_none.mp hfind e₀
                (List.mem_reverse.mpr he₀)
              exact absurd hsome (by simpa using hne)
      · have hntnil : nt = [] := hnt0 (by rw [hlt]; rfl)
        refine ⟨n, s ++ parse_events_table table lt, ?_, hn, ?_, ?_⟩
        · show events ++ parse_events_table table lt =
            n ++ (s ++ parse_events_table table lt)
          rw [hsplit, List.append_assoc]
        · intro e he
          rcases List.mem_append.mp he with he | he
          · exact hs e he
          · rw [htsplit, hntnil, List.nil_append] at he
            exact hst' e he
        · intro habs
          cases hfind : (parse_events_table table lt).reverse.find?
              (fun e => e.scheduled_time.isSome) with
          | some e₀ =>
            rw [hfind] at habs
            have habs' : e₀.scheduled_time = none := habs
            have hp := List.find?_some hfind
            simp [habs'] at hp
          | none =>
            rw [hfind, hlt] at habs
            exact Option.noConfusion habs

/-! ### Adjacency (most-recent-preceding inheritance) lemmas for C10 -/

theorem get_append_left_ev {α : Type} (l1 l2 : List α) {i : Nat}
    (h : i < l1.length) (h' : i < (l1 ++ l2).length) :
    (l1 ++ l2).get ⟨i, h'⟩ = l1.get ⟨i, h⟩ := by
  simp only [List.get_eq_getElem]
  exact List.getElem_append_left h

theorem get_append_right_add {α : Type} (l1 l2 : List α) {j : Nat}
    (hj : j < l2.length) (h' : l1.length + j < (l1 ++ l2).length) :
    (l1 ++ l2).get ⟨l1.length + j, h'⟩ = l2.get ⟨j, hj⟩ := by
  simp only [List.get_eq_getElem]
  rw [List.getElem_append_right (by omega)]
  congr 1
  omega

theorem get_concat_length_ev {α : Type} (l1 : List α) (a : α)
    (h : l1.length < (l1 ++ [a]).length) :
    (l1 ++ [a]).get ⟨l1.length, h⟩ = a := by
  simp only [List.get_eq_getElem]
  exact List.getElem_concat_length l1 a l1.length rfl h

theorem ne_nil_of_getLast?_ev {α : Type} {l : List α} {e : α}
    (h : l.getLast? = some e) : l ≠ [] := by
  intro hnil
  subst hnil
  exact Option.noConfusion h

/-- A list whose `getLast?` is `some e` has `e` at index `length - 1`. -/
theorem getLast?_get_ev {α : Type} {l : List α} {e : α}
    (h : l.getLast? = some e) (hne : l ≠ []) (hl : l.length - 1 < l.length) :
    l.get ⟨l.length - 1, hl⟩ = e := by
  have h1 := List.getLast?_eq_getLast l hne
  rw [h] at h1
  have h2 : l.getLast hne = e := (Option.some.inj h1).symm
  rw [← h2]
  simp only [List.get_eq_getElem]
  exact (List.getLast_eq_getElem l hne).symm

/-- Preservation of the row-level adjacency invariant by one
`parseTableRowsStep`. -/
theorem adjRowsStep_preserve (cols : ColMap) (lt0 : Option PyTime)
    (rows : List (List String)) (row : List String) (hrow : row ∈ rows)
    (events : List Event) (lt : Option PyTime)
    (hinv : adjRowsInv rows cols lt0 (events, lt)) :
    adjRowsInv rows cols lt0 (parseTableRowsStep cols (events, lt) row) := by
  obtain ⟨A, B⟩ := hinv
  by_cases hskip : (row = [] || row.all (fun c => c = "")) = true
  · have hstep : parseTableRowsStep cols (events, lt) row = (events, lt) := by
      simp only [parseTableRowsStep, if_pos hskip]
    rw [hstep]
    exact ⟨A, B⟩
  · match hper : parse_event_row row cols with
    | none =>
      have hstep : parseTableRowsStep cols (events, lt) row = (events, lt) := by
        simp only [parseTableRowsStep, if_neg hskip, hper]
      rw [hstep]
      exact ⟨A, B⟩
    | some e =>
      by_cases hA : (decide (e.scheduled_time = none) && lt.isSome) = true
      · have hstep : parseTableRowsStep cols (events, lt) row =
            (events ++ [{ e with scheduled_time := lt }], lt) := by
          simp only [parseTableRowsStep, if_neg hskip, hper]
          rw [if_pos hA]
        rw [hstep]
        simp only [Bool.and_eq_true, decide_eq_true_eq] at hA
        obtain ⟨hTN, hLS⟩ := hA
        constructor
        · intro i hi t ht
          have hlen : (events ++ [{ e with scheduled_time := lt }]).length =
              events.length + 1 := by simp
          by_cases hilt : i < events.length
          · have hget := get_append_left_ev events
              [{ e with scheduled_time := lt }] hilt hi
            rw [hget] at ht
            rcases A i hilt t ht with ⟨row1, hrow1, hper1⟩ | ⟨j, hj, hji, hjt⟩ | hz
            · exact Or.inl ⟨row1, hrow1, by rw [hget]; exact hper1⟩
            · have hj' : j <
                  (events ++ [{ e with scheduled_time := lt }]).length := by
                rw [hlen]; omega
              refine Or.inr (Or.inl ⟨j, hj', hji, ?_⟩)
              rw [get_append_left_ev events _ hj hj']
              exact hjt
            · exact Or.inr (Or.inr hz)
          · have hieq : i = events.length := by
              rw [hlen] at hi; omega
            subst hieq
            have hget := get_concat_length_ev events
              { e with scheduled_time := lt } hi
            rw [hget] at ht
            have hlt' : lt = some t := ht
            rcases List.eq_nil_or_concat events with hnil | ⟨l1, a, hconcat⟩
            · refine Or.inr (Or.inr ⟨by simp [hnil], ?_⟩)
              exact (B t hlt').1 hnil
            · rw [List.concat_eq_append] at hconcat
              have hne : events ≠ [] := by rw [hconcat]; simp
              have hlast := List.getLast?_eq_getLast events hne
              have htime : (events.getLast hne).scheduled_time = some t :=
                (B t hlt').2 _ hlast
              have hlpos : 0 < events.length := List.length_pos.mpr hne
              have hj2 : events.length - 1 < events.length := by omega
              have hj' : events.length - 1 <
                  (events ++ [{ e with scheduled_time := lt }]).length := by
                rw [hlen]; omega
              refine Or.inr (Or.inl ⟨events.length - 1, hj', by omega, ?_⟩)
              rw [get_append_left_ev events _ hj2 hj']
              rw [getLast?_get_ev hlast hne hj2]
              exact htime
        · intro t hlt2
          constructor
          · intro habs
            exact absurd habs (by simp)
          · intro e2 h2
            rw [List.getLast?_concat] at h2
            have h3 : { e with scheduled_time := lt } = e2 := Option.some.inj h2
            rw [← h3]
            exact hlt2
      · by_cases hB : e.scheduled_time.isSome = true
        · have hstep : parseTableRowsStep cols (events, lt) row =
              (events ++ [e], e.scheduled_time) := by
            simp only [parseTableRowsStep, if_neg hskip, hper]
            rw [if_neg hA, if_pos hB]
          rw [hstep]
          constructor
          · intro i hi t ht
            have hlen : (events ++ [e]).length = events.length + 1 := by simp
            by_cases hilt : i < events.length
            · have hget := get_append_left_ev events [e] hilt hi
              rw [hget] at ht
              rcases A i hilt t ht with ⟨row1, hrow1, hper1⟩ | ⟨j, hj, hji, hjt⟩ | hz
              · exact Or.inl ⟨row1, hrow1, by rw [hget]; exact hper1⟩
              · have hj' : j < (events ++ [e]).length := by rw [hlen]; omega
                refine Or.inr (Or.inl ⟨j, hj', hji, ?_⟩)
                rw [get_append_left_ev events _ hj hj']
                exact hjt
              · exact Or.inr (Or.inr hz)
            · have hieq : i = events.length := by rw [hlen] at hi; omega
              subst hieq
              have hget := get_concat_length_ev events e hi
              refine Or.inl ⟨row, hrow, ?_⟩
              rw [hget]
              exact hper
          · intro t hlt2
            constructor
            · intro habs
              exact absurd habs (by simp)
            · intro e2 h2
              rw [List.getLast?_concat] at h2
              have h3 : e = e2 := Option.some.inj h2
              rw [← h3]
              exact hlt2
        · have hTN : e.scheduled_time = none := by
            cases hts : e.scheduled_time with
            | none => rfl
            | some t0 => rw [hts] at hB; exact absurd rfl hB
          have hLN : lt = none := by
            cases hlt : lt with
            | none => rfl
            | some v =>
              rw [hTN, hlt] at hA
              exact absurd (by simp) hA
          have hstep : parseTableRowsStep cols (events, lt) row =
              (events ++ [e], lt) := by
            simp only [parseTableRowsStep, if_neg hskip, hper]
            rw [if_neg hA, if_neg hB]
          rw [hstep]
          constructor
          · intro i hi t ht
            have hlen : (events ++ [e]).length = events.length + 1 := by simp
            by_cases hilt : i < events.length
            · have hget := get_append_left_ev events [e] hilt hi
              rw [hget] at ht
              rcases A i hilt t ht with ⟨row1, hrow1, hper1⟩ | ⟨j, hj, hji, hjt⟩ | hz
              · exact Or.inl ⟨row1, hrow1, by rw [hget]; exact hper1⟩
              · have hj' : j < (events ++ [e]).length := by rw [hlen]; omega
                refine Or.inr (Or.inl ⟨j, hj', hji, ?_⟩)
                rw [get_append_left_ev events _ hj hj']
                exact hjt
              · exact Or.inr (Or.inr hz)
            · have hieq : i = events.length := by rw [hlen] at hi; omega
              subst hieq
              have hget := get_concat_length_ev events e hi
              rw [hget, hTN] at ht
              exact Option.noConfusion ht
          · intro t hlt2
            rw [hLN] at hlt2
            exact Option.noConfusion hlt2

/-- The row-level adjacency invariant holds of the whole data-row fold. -/
theorem adjRows_fold (rows : List (List String)) (cols : ColMap)
    (lt0 : Option PyTime) :
    adjRowsInv rows cols lt0
      (rows.foldl (parseTableRowsStep cols) ([], lt0)) := by
  refine foldl_preserve (adjRowsInv rows cols lt0) (parseTableRowsStep cols)
    rows ?_ ([], lt0) ?_
  · intro st row hrow hst
    obtain ⟨events, lt⟩ := st
    exact adjRowsStep_preserve cols lt0 rows row hrow events lt hst
  · constructor
    · intro i hi t ht
      exact absurd hi (by simp)
    · intro t ht
      refine ⟨fun _ => ht, ?_⟩
      intro e2 h2
      exact absurd h2 (by simp)

/-- At the table level: each produced event is the parse of its own row,
or its time equals the time of the immediately preceding event of the
table, with the initial threaded time standing in for the predecessor of
the first event. -/
theorem parse_events_table_adj (table : List (List String))
    (lt0 : Option PyTime) :
    ∀ i, ∀ hi : i < (parse_events_table table lt0).length, ∀ t,
      ((parse_events_table table lt0).get ⟨i, hi⟩).scheduled_time = some t →
      (∃ row ∈ table, ∃ cols, parse_event_row row cols =
        some ((parse_events_table table lt0).get ⟨i, hi⟩)) ∨
      (∃ j, ∃ hj : j < (parse_events_table table lt0).length, j + 1 = i ∧
        ((parse_events_table table lt0).get ⟨j, hj⟩).scheduled_time = some t) ∨
      (i = 0 ∧ lt0 = some t) := by
  obtain ⟨start, cols, heq⟩ : ∃ start cols, parse_events_table table lt0 =
      (parseTableRows (table.drop start) cols lt0).1 := ⟨_, _, rfl⟩
  rw [heq]
  intro i hi t ht
  rcases (adjRows_fold (table.drop start) cols lt0).1 i hi t ht with
    ⟨row, hrow, hper⟩ | hrest
  · exact Or.inl ⟨row, List.drop_subset _ _ hrow, cols, hper⟩
  · exact Or.inr hrest

/-- When the produced events split into a time-less block followed by a
timed block, the backwards search for a timed event finds exactly the last
produced event. -/
theorem find?_reverse_last {tevs n s : List Event}
    (hsplit : tevs = n ++ s) (hn : ∀ x ∈ n, x.scheduled_time = none)
    (hs : ∀ x ∈ s, x.scheduled_time.isSome = true) {e : Event}
    (hfind : tevs.reverse.find? (fun x => x.scheduled_time.isSome) = some e) :
    tevs.getLast? = some e := by
  rcases List.eq_nil_or_concat s with hsnil | ⟨l1, a, hconcat⟩
  · subst hsnil
    have hmem := List.mem_of_find?_eq_some hfind
    rw [List.mem_reverse] at hmem
    have hp := List.find?_some hfind
    rw [hsplit, List.append_nil] at hmem
    have hnone := hn e hmem
    rw [hnone] at hp
    exact absurd hp (by simp)
  · rw [List.concat_eq_append] at hconcat
    subst hconcat
    have hrev : tevs.reverse = a :: (l1.reverse ++ n.reverse) := by
      rw [hsplit]
      simp
    have hpa : a.scheduled_time.isSome = true := by
      refine hs a ?_
      exact List.mem_append_right _ (List.mem_singleton_self _)
    have hfc : List.find? (fun x => x.scheduled_time.isSome)
        (a :: (l1.reverse ++ n.reverse)) = some a :=
      List.find?_cons_of_pos _ hpa
    rw [hrev, hfc] at hfind
    have hae : a = e := Option.some.inj hfind
    rw [hsplit, ← List.append_assoc, ← hae]
    exact List.getLast?_concat _

/-- Preservation of the document-level adjacency invariant by one
`extractTablesStep`. -/
theorem adjTablesStep_preserve (tables : List (List (List String)))
    (table : List (List String)) (htab : table ∈ tables)
    (events : List Event) (lt : Option PyTime)
    (hinv : adjTablesInv tables (events, lt)) :
    adjTablesInv tables (extractTablesStep (events, lt) table) := by
  obtain ⟨A, B⟩ := hinv
  by_cases hempty : table = []
  · have hstep : extractTablesStep (events, lt) table = (events, lt) := by
      simp only [extractTablesStep, if_pos hempty]
    rw [hstep]
    exact ⟨A, B⟩
  · have hstep : extractTablesStep (events, lt) table =
        (events ++ parse_events_table table lt,
          match (parse_events_table table lt).reverse.find?
              (fun e => e.scheduled_time.isSome) with
            | some e => e.scheduled_time
            | none => lt) := by
      simp only [extractTablesStep, if_neg hempty]
    rw [hstep]
    obtain ⟨-, nsp, ssp, htsplit, hnn, hss, hnn0⟩ :=
      parse_events_table_spec table lt
    constructor
    · intro i hi t ht
      have hlen : (events ++ parse_events_table table lt).length =
          events.length + (parse_events_table table lt).length := by simp
      by_cases hilt : i < events.length
      · have hget := get_append_left_ev events
          (parse_events_table table lt) hilt hi
        rw [hget] at ht
        rcases A i hilt t ht with
          ⟨table1, htab1, row, hrow, cols, hper⟩ | ⟨j, hj, hji, hjt⟩
        · exact Or.inl ⟨table1, htab1, row, hrow, cols, by rw [hget]; exact hper⟩
        · have hj' : j < (events ++ parse_events_table table lt).length := by
            rw [hlen]; omega
          refine Or.inr ⟨j, hj', hji, ?_⟩
          rw [get_append_left_ev events _ hj hj']
          exact hjt
      · obtain ⟨k, rfl⟩ : ∃ k, i = events.length + k :=
          ⟨i - events.length, by omega⟩
        have hk : k < (parse_events_table table lt).length := by
          rw [hlen] at hi; omega
        have hget := get_append_right_add events
          (parse_events_table table lt) hk hi
        rw [hget] at ht
        rcases parse_events_table_adj table lt k hk t ht with
          ⟨row, hrow, cols, hper⟩ | ⟨j, hj, hji, hjt⟩ | ⟨hk0, hlt'⟩
        · exact Or.inl ⟨table, htab, row, hrow, cols, by rw [hget]; exact hper⟩
        · have hj' : events.length + j <
              (events ++ parse_events_table table lt).length := by
            rw [hlen]; omega
          refine Or.inr ⟨events.length + j, hj', by omega, ?_⟩
          rw [get_append_right_add events _ hj hj']
          exact hjt
        · subst hk0
          obtain ⟨e0, hlast, htime⟩ := B t hlt'
          have hne : events ≠ [] := ne_nil_of_getLast?_ev hlast
          have hlpos : 0 < events.length := List.length_pos.mpr hne
          have hj2 : events.length - 1 < events.length := by omega
          have hj' : events.length - 1 <
              (events ++ parse_events_table table lt).length := by
            rw [hlen]; omega
          refine Or.inr ⟨events.length - 1, hj', by omega, ?_⟩
          rw [get_append_left_ev events _ hj2 hj']
          rw [getLast?_get_ev hlast hne hj2]
          exact htime
    · intro t hlt2
      cases hfind : (parse_events_table table lt).reverse.find?
          (fun x => x.scheduled_time.isSome) with
      | some estar =>
        rw [hfind] at hlt2
        have hlt3 : estar.scheduled_time = some t := hlt2
        have hlast : (parse_events_table table lt).getLast? = some estar :=
          find?_reverse_last htsplit hnn hss hfind
        refine ⟨estar, ?_, hlt3⟩
        rw [List.getLast?_append, hlast]
        rfl
      | none =>
        rw [hfind] at hlt2
        have hlt3 : lt = some t := hlt2
        obtain ⟨e0, hlast, htime⟩ := B t hlt3
        have hnnil : nsp = [] := hnn0 (by rw [hlt3]; rfl)
        have htevs : parse_events_table table lt = [] := by
          rcases List.eq_nil_or_concat (parse_events_table table lt) with
            hnil | ⟨l1, a, hconcat⟩
          · exact hnil
          · exfalso
            rw [List.concat_eq_append] at hconcat
            have hamem : a ∈ parse_events_table table lt := by
              rw [hconcat]
              exact List.mem_append_right _ (List.mem_singleton_self _)
            have hamem2 : a ∈ ssp := by
              rw [htsplit, hnnil, List.nil_append] at hamem
              exact hamem
            have hsome := hss a hamem2
            have hnone := List.find?_eq_none.mp hfind a
              (List.mem_reverse.mpr hamem)
            simp only [Bool.not_eq_true] at hnone
            rw [hnone] at hsome
            exact Bool.noConfusion hsome
        refine ⟨e0, ?_, htime⟩
        rw [htevs, List.append_nil]
        exact hlast

/-- The document-level adjacency invariant holds of the whole
table fold. -/
theorem adjTables_fold (tables : List (List (List String))) :
    adjTablesInv tables (tables.foldl extractTablesStep ([], none)) := by
  refine foldl_preserve (adjTablesInv tables) extractTablesStep
    tables ?_ ([], none) ?_
  · intro st table htab hst
    obtain ⟨events, lt⟩ := st
    exact adjTablesStep_preserve tables table htab events lt hst
  · constructor
    · intro i hi t ht
      exact absurd hi (by simp)
    · intro t ht
      exact Option.noConfusion ht

/-- C10: in the document-level extraction, (a) the events without a time
form a prefix — an event's time is `none` only when no earlier event of
the document carried one; (b) every scheduled time is parsed from a cell
of one of the document's table rows; and (c) each event's time is either
the parse of its own row (the event is the unmodified `parse_event_row`
output of a row of one of the tables) or equal to the time of the
immediately preceding event of the document — which, the prefix being
time-less, is precisely the most recent preceding event that carried a
time, threaded across table boundaries. -/
theorem C10_time_inheritance (tables : List (List (List String))) :
    (∃ k, (∀ e ∈ (extract_events_from_tables tables).take k,
        e.scheduled_time = none) ∧
      (∀ e ∈ (extract_events_from_tables tables).drop k,
        e.scheduled_time.isSome = true)) ∧
    (∀ e ∈ extract_events_from_tables tables, ∀ t, e.scheduled_time = some t →
      ∃ table ∈ tables, ∃ row ∈ table, ∃ cell ∈ row,
        parse_time (pyStrip cell) = some t) ∧
    (∀ i, ∀ hi : i < (extract_events_from_tables tables).length, ∀ t,
      ((extract_events_from_tables tables).get ⟨i, hi⟩).scheduled_time =
        some t →
      (∃ table ∈ tables, ∃ row ∈ table, ∃ cols, parse_event_row row cols =
        some ((extract_events_from_tables tables).get ⟨i, hi⟩)) ∨
      (∃ j, ∃ hj : j < (extract_events_from_tables tables).length,
        j + 1 = i ∧
        ((extract_events_from_tables tables).get ⟨j, hj⟩).scheduled_time =
          some t)) := by
  have hmain : tablesInv tables
      (tables.foldl extractTablesStep ([], none)) := by
    refine foldl_preserve (tablesInv tables) extractTablesStep
      tables ?_ ([], none) ?_
    · intro st table htab hst
      obtain ⟨p1, p2, p3⟩ := hst
      obtain ⟨events, lt⟩ := st
      exact extractTablesStep_preserve _ table
        (fun row hrow cell hcell t hpc => ⟨table, htab, row, hrow, cell, hcell, hpc⟩)
        events lt p1 p2 p3
    · exact ⟨by simp, by simp, [], [], by simp, by simp, by simp, fun _ => rfl⟩
  obtain ⟨gg1, -, n, s, hsplit, hn, hs, -⟩ := hmain
  have hev : extract_events_from_tables tables =
      (tables.foldl extractTablesStep ([], none)).1 := rfl
  refine ⟨?_, ?_, ?_⟩
  · refine ⟨n.length, ?_, ?_⟩
    · intro e he
      rw [hev] at he
      have hsplit' : (tables.foldl extractTablesStep ([], none)).1 = n ++ s :=
        hsplit
      rw [hsplit', List.take_left] at he
      exact hn e he
    · intro e he
      rw [hev] at he
      have hsplit' : (tables.foldl extractTablesStep ([], none)).1 = n ++ s :=
        hsplit
      rw [hsplit', List.drop_left] at he
      exact hs e he
  · intro e he t het
    rw [hev] at he
    exact gg1 e he t het
  · intro i hi t ht
    exact (adjTables_fold tables).1 i hi t ht

/-- C10 witness: a document with two tables where the second table row
carries no time and inherits the 11:00 of the immediately preceding event
across the table boundary — the provenance and adjacency clauses
instantiated at the third event. -/
theorem C10_time_inheritance_witness :
    ((let evs := extract_events_from_tables [specTable, noTimeTable]
      evs.map Event.scheduled_time =
        [some ⟨10, 0⟩, some ⟨11, 0⟩, some ⟨11, 0⟩]) ∧
     (∃ table ∈ [specTable, noTimeTable], ∃ row ∈ table, ∃ cell ∈ row,
       parse_time (pyStrip cell) = some ⟨11, 0⟩) ∧
     ∃ hi : 2 < (extract_events_from_tables [specTable, noTimeTable]).length,
       (∃ table ∈ [specTable, noTimeTable], ∃ row ∈ table, ∃ cols,
         parse_event_row row cols =
           some ((extract_events_from_tables
             [specTable, noTimeTable]).get ⟨2, hi⟩)) ∨
       (∃ j, ∃ hj : j <
           (extract_events_from_tables [specTable, noTimeTable]).length,
         j + 1 = 2 ∧
         ((extract_events_from_tables
           [specTable, noTimeTable]).get ⟨j, hj⟩).scheduled_time =
             some ⟨11, 0⟩)) := by
  refine ⟨by decide, ?_, ⟨by decide, ?_⟩⟩
  · exact (C10_time_inheritance [specTable, noTimeTable]).2.1
      ⟨"Altura", EventType.concurso, Sex.femenino, "", some ⟨11, 0⟩⟩
      (by decide) ⟨11, 0⟩ rfl
  · exact (C10_time_inheritance [specTable, noTimeTable]).2.2 2 (by decide)
      ⟨11, 0⟩ (by decide)

end FamScape
